import Mathlib

namespace Checkpoint

/-!
Verification of the checkpoint message layer
(`crates/sui-types/src/messages_checkpoint.rs`).

The development shallowly embeds the Rust code:

* `BTreeMap` is modelled by association lists with strictly increasing `Nat`
  keys (`alInsert`, `alLookup`, `alSorted`);
* `BTreeSet` / `HashSet` of digests are modelled by `Finset Nat`;
* slices `bytes.chunks(n)` are modelled by `chunksOf`;
* the external capabilities that live outside this file in the repository
  (signatures, the waypoint accumulator, bincode serialization, committees,
  certified transactions) are modelled from the specification: each such
  definition carries a doc comment starting with `Modelled from the spec:`.

`AuthorityName` and `ExecutionDigests` are abstract identifiers, embedded as
`Nat`.
-/

/-! ## Association lists with sorted keys: the model of `BTreeMap` -/

/-- Insertion into an association list kept sorted by strictly increasing
keys; an existing key is overwritten, as `BTreeMap::insert` does. -/

def alInsert {α : Type} (k : Nat) (v : α) : List (Nat × α) → List (Nat × α)
  | [] => [(k, v)]
  | (k₁, v₁) :: t =>
    if k < k₁ then (k, v) :: (k₁, v₁) :: t
    else if k = k₁ then (k, v) :: t
    else (k₁, v₁) :: alInsert k v t

/-- Lookup by key, the model of `BTreeMap::get`. -/

def alLookup {α : Type} (k : Nat) : List (Nat × α) → Option α
  | [] => none
  | (k₁, v₁) :: t => if k = k₁ then some v₁ else alLookup k t

/-- The key `k` is a strict lower bound for the keys at the head of `l`
(vacuously true on the empty list). -/

def alLB {α : Type} (k : Nat) : List (Nat × α) → Bool
  | [] => true
  | (k₁, _) :: _ => decide (k < k₁)

/-- Keys strictly increasing: the `BTreeMap` representation invariant. -/

def alSorted {α : Type} : List (Nat × α) → Bool
  | [] => true
  | (k, _) :: t => alLB k t && alSorted t

/-! ## Chunked byte sequences: the model of `slice::chunks` -/

/-- Model of Rust `bytes.chunks(n)`: successive slices of `n` elements, the
last possibly shorter; the empty slice yields no chunks.  (Rust panics on
`n = 0`; the sole call site passes the nonzero constant, and the model
returns `[]` in that unreachable case.) -/

def chunksOf {α : Type} (n : Nat) (l : List α) : List (List α) :=
  if n = 0 then []
  else
    match l with
    | [] => []
    | x :: t => (x :: t).take n :: chunksOf n ((x :: t).drop n)
termination_by l.length
decreasing_by
  rename_i hn
  have h1 : 0 < n := Nat.pos_of_ne_zero hn
  simp only [List.length_drop, List.length_cons]
  omega

/-! ## A canonical byte codec: the model of bincode serialization -/

/-- Round-trip contract for an encoder/decoder pair: the decoder consumes
exactly the encoding and returns the remaining input unchanged. -/

def RT {α : Type} (enc : α → List Nat) (dec : List Nat → Option (α × List Nat)) : Prop :=
  ∀ a rest, dec (enc a ++ rest) = some (a, rest)

/-- Encoder for one abstract byte. -/

def encNat (n : Nat) : List Nat := [n]

/-- Decoder for one abstract byte. -/

def decNat : List Nat → Option (Nat × List Nat)
  | [] => none
  | n :: t => some (n, t)

/-- Length-prefixed list encoder. -/

def encListWith {α : Type} (encA : α → List Nat) (l : List α) : List Nat :=
  l.length :: (l.map encA).flatten

/-- Decoder for a fixed count of consecutive items. -/

def decCount {α : Type} (decA : List Nat → Option (α × List Nat)) :
    Nat → List Nat → Option (List α × List Nat)
  | 0, rest => some ([], rest)
  | n + 1, rest =>
    match decA rest with
    | none => none
    | some (a, rest₁) =>
      match decCount decA n rest₁ with
      | none => none
      | some (as, rest₂) => some (a :: as, rest₂)

/-- Length-prefixed list decoder. -/

def decListWith {α : Type} (decA : List Nat → Option (α × List Nat)) :
    List Nat → Option (List α × List Nat)
  | [] => none
  | n :: rest => decCount decA n rest

/-- Pair encoder: first component followed by the second. -/

def encPairWith {α β : Type} (encA : α → List Nat) (encB : β → List Nat)
    (p : α × β) : List Nat :=
  encA p.1 ++ encB p.2

/-- Pair decoder. -/

def decPairWith {α β : Type} (decA : List Nat → Option (α × List Nat))
    (decB : List Nat → Option (β × List Nat)) (l : List Nat) :
    Option ((α × β) × List Nat) :=
  match decA l with
  | none => none
  | some (a, rest₁) =>
    match decB rest₁ with
    | none => none
    | some (b, rest₂) => some ((a, b), rest₂)

/-- Canonical sorted element list of a multiset, via structural insertion
sort: the model of the sorted (`BTreeSet`-order) iteration the source relies
on, chosen to be kernel-computable. -/
def msCanon (s : Multiset Nat) : List Nat :=
  Quot.liftOn s (fun l => List.insertionSort (· ≤ ·) l) (fun l₁ l₂ h =>
    List.eq_of_perm_of_sorted
      (((List.perm_insertionSort (· ≤ ·) l₁).trans h).trans
        (List.perm_insertionSort (· ≤ ·) l₂).symm)
      (List.sorted_insertionSort (· ≤ ·) l₁)
      (List.sorted_insertionSort (· ≤ ·) l₂))

/-- Canonical sorted element list of a finite set. -/
def fsCanon (s : Finset Nat) : List Nat := msCanon s.val

/-! ## Base identifiers and error taxonomy -/

abbrev EpochId := Nat

abbrev StakeUnit := Nat

abbrev CheckpointSequenceNumber := Nat

/-- Authority identities are abstract; embedded as `Nat`. -/

abbrev AuthorityName := Nat

/-- Execution digests are abstract 32-byte values; embedded as `Nat`. -/

abbrev ExecutionDigests := Nat

abbrev CheckpointDigest := List Nat

abbrev CheckpointContentsDigest := List Nat

/-- Error kinds surfaced by the fallible operations, one constructor per
distinct failure reported by the source. -/

inductive SuiErr where
  | needAtLeastOneSignedCheckpoint
  | epochMismatch
  | signatureInvalid
  | quorumInsufficient
  | contentsDigestMismatch
  | proposalContentMismatch
  | inconsistentSequenceNumbers
  | waypointSummaryInconsistent
  | waypointDiffInvalid
  | missingCert (digest : ExecutionDigests)
  | certSignatureInvalid
  | chunkIdOutOfBound (chunk_id chunk_count : Nat)
  | fragmentMissingChunks
  | deserializationFailed
deriving DecidableEq

/-! ## External capabilities, modelled from the spec -/

/-- Modelled from the spec: the committee capability (`committee.rs` is not
part of the embedded source) — `epoch()`, per-authority stake weights, and the
quorum threshold, consumed read-only. -/

structure Committee where
  epoch : EpochId
  voting_rights : List (AuthorityName × StakeUnit)
  threshold : StakeUnit
deriving DecidableEq

/-- Modelled from the spec: `stake_of(identity)` — the committee-registered
stake of an authority, zero for non-members. -/

def Committee.weight (c : Committee) (a : AuthorityName) : StakeUnit :=
  (c.voting_rights.lookup a).getD 0

/-- Modelled from the spec: `quorum_threshold() -> StakeUnit`. -/

def Committee.quorum_threshold (c : Committee) : StakeUnit := c.threshold

/-- Modelled from the spec: the signing capability — symbolically, a
signature records exactly the payload, epoch and signer it was produced
over, so verification can compare them. -/

structure Sig (M : Type) where
  msg : M
  epoch : EpochId
  signer : AuthorityName
deriving DecidableEq

/-- One authority's signature envelope metadata (`AuthoritySignInfo`). -/

structure AuthoritySignInfo (M : Type) where
  epoch : EpochId
  authority : AuthorityName
  signature : Sig M
deriving DecidableEq

/-- Honest signing: `AuthoritySignInfo::new(epoch, message, authority, signer)`. -/

def AuthoritySignInfo.new {M : Type} (epoch : EpochId) (m : M)
    (authority : AuthorityName) : AuthoritySignInfo M :=
  ⟨epoch, authority, ⟨m, epoch, authority⟩⟩

/-- Modelled from the spec: single-signer verification — the claimed signer
must hold stake in the committee (be a recognized member) and the signature
must be cryptographically valid for exactly this payload under the recorded
epoch and the claimed signer's key. -/

def AuthoritySignInfo.verify {M : Type} [DecidableEq M]
    (info : AuthoritySignInfo M) (m : M) (c : Committee) : Bool :=
  decide (c.weight info.authority ≠ 0 ∧
    info.signature = ⟨m, info.epoch, info.authority⟩)

/-- Modelled from the spec: the gas cost summary carried by a checkpoint
summary (`gas.rs` is not part of the embedded source); opaque here. -/

structure GasCostSummary where
  computation_cost : Nat
  storage_cost : Nat
  storage_rebate : Nat
deriving DecidableEq

/-! ## Checkpoint contents and summaries -/

/-- `CheckpointContents`: the causally ordered digest sequence. -/

structure CheckpointContents where
  transactions : List ExecutionDigests
deriving DecidableEq

def CheckpointContents.size (c : CheckpointContents) : Nat :=
  c.transactions.length

/-- Modelled from the spec: `sha3_hash` — a deterministic injective digest;
embedded as the canonical byte form of the hashed sequence. -/

def CheckpointContents.digest (c : CheckpointContents) : CheckpointContentsDigest :=
  c.transactions

/-- `CheckpointProposalContents`: a validator's unordered candidate set;
`BTreeSet` is embedded as `Finset`, which deduplicates and forgets order. -/

structure CheckpointProposalContents where
  transactions : Finset ExecutionDigests
deriving DecidableEq

/-- `CheckpointProposalContents::new` collects an iterator into the set. -/

def CheckpointProposalContents.new (contents : List ExecutionDigests) :
    CheckpointProposalContents :=
  ⟨contents.toFinset⟩

/-- Modelled from the spec: `sha3_hash` of the set — the digest of the
canonical (sorted, deduplicated) form, hence order-independent. -/

def CheckpointProposalContents.digest (c : CheckpointProposalContents) :
    CheckpointContentsDigest :=
  fsCanon c.transactions

/-- `CheckpointSummary` of a finalized checkpoint. -/

structure CheckpointSummary where
  epoch : EpochId
  sequence_number : CheckpointSequenceNumber
  content_digest : CheckpointContentsDigest
  previous_digest : Option CheckpointDigest
  gas_cost_summary : GasCostSummary
  next_epoch_committee : Option (List (AuthorityName × StakeUnit))
deriving DecidableEq

/-! ## The waypoint capability, modelled from the spec -/

/-- Modelled from the spec: the authenticated-set commitment ("waypoint",
`waypoint.rs` is not part of the embedded source).  Its contract is
order-independent accumulation of inserted items; the free model of such an
accumulator is the multiset of inserted items. -/

abbrev Waypoint := Multiset ExecutionDigests

/-- Modelled from the spec: `insert(item)` on the accumulator. -/

def Waypoint.insert (w : Waypoint) (x : ExecutionDigests) : Waypoint := x ::ₘ w

/-- `Waypoint::default()`: the empty accumulator. -/

def Waypoint.default : Waypoint := 0

/-- `CheckpointProposalSummary`: sequence number, waypoint commitment over
the proposal set, and the contents digest. -/

structure CheckpointProposalSummary where
  sequence_number : CheckpointSequenceNumber
  waypoint : Waypoint
  content_digest : CheckpointContentsDigest
deriving DecidableEq

/-- `CheckpointProposalSummary::new` inserts every element of the proposal
set (iterated in `BTreeSet` order, i.e. sorted) into a fresh waypoint. -/

def CheckpointProposalSummary.new (sequence_number : CheckpointSequenceNumber)
    (transactions : CheckpointProposalContents) : CheckpointProposalSummary :=
  { sequence_number := sequence_number
    waypoint := (fsCanon transactions.transactions).foldl
      Waypoint.insert Waypoint.default
    content_digest := transactions.digest }

/-- `SignedCheckpointProposalSummary`: a proposal summary plus its author's
signature. -/

structure SignedCheckpointProposalSummary where
  summary : CheckpointProposalSummary
  auth_signature : AuthoritySignInfo CheckpointProposalSummary
deriving DecidableEq

def SignedCheckpointProposalSummary.authority
    (s : SignedCheckpointProposalSummary) : AuthorityName :=
  s.auth_signature.authority

/-- `SignedCheckpointProposalSummary::verify`: check the signature, and if
contents are supplied recompute the summary from them and require equality
(which checks digest and waypoint at once). -/

def SignedCheckpointProposalSummary.verify (s : SignedCheckpointProposalSummary)
    (c : Committee) (contents : Option CheckpointProposalContents) :
    Except SuiErr Unit :=
  if ¬ s.auth_signature.verify s.summary c then .error .signatureInvalid
  else
    match contents with
    | none => .ok ()
    | some cont =>
      if CheckpointProposalSummary.new s.summary.sequence_number cont = s.summary
      then .ok () else .error .proposalContentMismatch

/-! ## Signed and certified checkpoint summaries -/

/-- `SignedCheckpointSummary = CheckpointSummaryEnvelope<AuthoritySignInfo>`. -/

structure SignedCheckpointSummary where
  summary : CheckpointSummary
  auth_signature : AuthoritySignInfo CheckpointSummary
deriving DecidableEq

/-- `SignedCheckpointSummary::verify`: epoch check, signature check, and the
optional contents digest cross-check. -/

def SignedCheckpointSummary.verify (s : SignedCheckpointSummary) (c : Committee)
    (contents : Option CheckpointContents) : Except SuiErr Unit :=
  if s.summary.epoch ≠ c.epoch then .error .epochMismatch
  else if ¬ s.auth_signature.verify s.summary c then .error .signatureInvalid
  else
    match contents with
    | none => .ok ()
    | some cont =>
      if cont.digest = s.summary.content_digest then .ok ()
      else .error .contentsDigestMismatch

/-- Modelled from the spec: the aggregated quorum signature structure
(`AuthorityWeakQuorumSignInfo`, defined in `crypto.rs` outside the embedded
source): the epoch it is keyed to and the combined individual signatures. -/

structure AuthorityWeakQuorumSignInfo where
  epoch : EpochId
  signatures : List (AuthoritySignInfo CheckpointSummary)
deriving DecidableEq

/-- Modelled from the spec: combine all individual signatures into one
aggregated-signature structure keyed by the committee; the quorum and
validity constraints are enforced by the subsequent self-verification, not
here. -/

def AuthorityWeakQuorumSignInfo.new_from_auth_sign_infos
    (infos : List (AuthoritySignInfo CheckpointSummary)) (c : Committee) :
    AuthorityWeakQuorumSignInfo :=
  ⟨c.epoch, infos⟩

/-- Combined stake of the distinct signers recorded in the aggregate. -/

def AuthorityWeakQuorumSignInfo.signersStake (q : AuthorityWeakQuorumSignInfo)
    (c : Committee) : StakeUnit :=
  ((q.signatures.map (·.authority)).dedup.map c.weight).sum

/-- Modelled from the spec: quorum-envelope verification — the contributing
signer set, weighted by committee stake, must meet the quorum threshold, and
every contributing signature must itself be valid against the identical
payload. -/

def AuthorityWeakQuorumSignInfo.verify (q : AuthorityWeakQuorumSignInfo)
    (m : CheckpointSummary) (c : Committee) : Except SuiErr Unit :=
  if ¬ c.quorum_threshold ≤ q.signersStake c then .error .quorumInsufficient
  else if ¬ q.signatures.all (fun s => s.verify m c) then .error .signatureInvalid
  else .ok ()

/-- `CertifiedCheckpointSummary = CheckpointSummaryEnvelope<AuthorityWeakQuorumSignInfo>`. -/

structure CertifiedCheckpointSummary where
  summary : CheckpointSummary
  auth_signature : AuthorityWeakQuorumSignInfo
deriving DecidableEq

/-- `CertifiedCheckpointSummary::verify`: epoch check, aggregated signature
check (quorum stake plus every member signature), and the optional contents
digest cross-check. -/

def CertifiedCheckpointSummary.verify (cert : CertifiedCheckpointSummary)
    (c : Committee) (contents : Option CheckpointContents) : Except SuiErr Unit :=
  if cert.summary.epoch ≠ c.epoch then .error .epochMismatch
  else
    match cert.auth_signature.verify cert.summary c with
    | .error e => .error e
    | .ok () =>
      match contents with
      | none => .ok ()
      | some cont =>
        if cont.digest = cert.summary.content_digest then .ok ()
        else .error .contentsDigestMismatch

/-- `CertifiedCheckpointSummary::aggregate`: requires a non-empty input all
of whose payload epochs match the committee, takes the first payload as the
certificate's payload, combines the signatures, and immediately
self-verifies the result. -/

def CertifiedCheckpointSummary.aggregate :
    List SignedCheckpointSummary → Committee →
      Except SuiErr CertifiedCheckpointSummary
  | [], _ => .error .needAtLeastOneSignedCheckpoint
  | s₀ :: rest, c =>
    if ¬ (s₀ :: rest).all (fun s => s.summary.epoch == c.epoch) then
      .error .epochMismatch
    else
      let cert : CertifiedCheckpointSummary :=
        { summary := s₀.summary
          auth_signature := AuthorityWeakQuorumSignInfo.new_from_auth_sign_infos
            ((s₀ :: rest).map (·.auth_signature)) c }
      match cert.verify c none with
      | .error e => .error e
      | .ok () => .ok cert

/-! ## Proposals and fragments -/

/-- `CheckpointProposal`: a signed proposal summary coupled with the concrete
proposal contents. -/

structure CheckpointProposal where
  signed_summary : SignedCheckpointProposalSummary
  transactions : CheckpointProposalContents
deriving DecidableEq

/-- `CheckpointProposal::new`: build the summary from the contents and sign
it. -/

def CheckpointProposal.new (epoch : EpochId)
    (sequence_number : CheckpointSequenceNumber) (authority : AuthorityName)
    (transactions : CheckpointProposalContents) : CheckpointProposal :=
  let proposal_summary := CheckpointProposalSummary.new sequence_number transactions
  { signed_summary :=
      { summary := proposal_summary
        auth_signature := AuthoritySignInfo.new epoch proposal_summary authority }
    transactions := transactions }

def CheckpointProposal.sequence_number (p : CheckpointProposal) :
    CheckpointSequenceNumber :=
  p.signed_summary.summary.sequence_number

def CheckpointProposal.name (p : CheckpointProposal) : AuthorityName :=
  p.signed_summary.auth_signature.authority

/-- One side of a waypoint difference proof: identity, commitment, and the
items claimed missing from that side. -/

structure WaypointWithItems where
  key : AuthorityName
  waypoint : Waypoint
  items : Finset ExecutionDigests
deriving DecidableEq

/-- Modelled from the spec: the difference proof produced by the
authenticated-set capability, binding both parties' commitments to the
claimed missing-item lists. -/

structure WaypointDiff where
  first : WaypointWithItems
  second : WaypointWithItems
deriving DecidableEq

/-- Modelled from the spec: `difference(self_id, self_structure,
missing_self_items, other_id, other_structure, missing_other_items)`. -/

def WaypointDiff.new (k₁ : AuthorityName) (w₁ : Waypoint)
    (missing₁ : Finset ExecutionDigests) (k₂ : AuthorityName) (w₂ : Waypoint)
    (missing₂ : Finset ExecutionDigests) : WaypointDiff :=
  ⟨⟨k₁, w₁, missing₁⟩, ⟨k₂, w₂, missing₂⟩⟩

/-- Modelled from the spec: `DiffProof.check()` — in the free accumulator
model, augmenting each side's commitment with its claimed missing items must
yield identical accumulators. -/

def WaypointDiff.check (d : WaypointDiff) : Bool :=
  decide (d.first.waypoint + d.first.items.val =
    d.second.waypoint + d.second.items.val)

/-- Modelled from the spec: one authority's signature over a transaction
digest, part of a certified transaction's quorum. -/

structure TxSignature where
  signedTx : ExecutionDigests
  signer : AuthorityName
deriving DecidableEq

/-- Modelled from the spec: a certified transaction (`messages.rs` is not
part of the embedded source) — a transaction digest carrying a quorum of
authority signatures over it. -/

structure CertifiedTransaction where
  digest : ExecutionDigests
  sigs : List TxSignature
deriving DecidableEq

/-- Modelled from the spec: `CertifiedTransaction::verify_signature` — every
carried signature is over this transaction by a committee member, and the
signers' combined stake meets the quorum threshold. -/

def CertifiedTransaction.verify_signature (t : CertifiedTransaction)
    (c : Committee) : Except SuiErr Unit :=
  if t.sigs.all (fun s => decide (s.signedTx = t.digest ∧ c.weight s.signer ≠ 0))
      && decide (c.quorum_threshold ≤ ((t.sigs.map (·.signer)).dedup.map c.weight).sum)
  then .ok () else .error .certSignatureInvalid

/-- `CheckpointFragmentData`: the diff plus the certified-transaction
mapping (`BTreeMap`, embedded as a sorted association list). -/

structure CheckpointFragmentData where
  diff : WaypointDiff
  certs : List (ExecutionDigests × CertifiedTransaction)
deriving DecidableEq

/-- `CheckpointFragment`: both signed proposal summaries plus the data. -/

structure CheckpointFragment where
  proposer : SignedCheckpointProposalSummary
  other : SignedCheckpointProposalSummary
  data : CheckpointFragmentData
deriving DecidableEq

/-- `CheckpointProposal::fragment_with`: form the union of both digest sets,
record what each side is missing, and wrap both signed summaries with the
diff and an empty certificate mapping. -/

def CheckpointProposal.fragment_with (p other_proposal : CheckpointProposal) :
    CheckpointFragment :=
  let all_elements := p.transactions.transactions ∪
    other_proposal.transactions.transactions
  let iter_missing_me := all_elements \ p.transactions.transactions
  let iter_missing_other := all_elements \ other_proposal.transactions.transactions
  let diff := WaypointDiff.new p.name p.signed_summary.summary.waypoint
    iter_missing_me other_proposal.name
    other_proposal.signed_summary.summary.waypoint iter_missing_other
  { proposer := p.signed_summary
    other := other_proposal.signed_summary
    data := { diff := diff, certs := [] } }

/-- The certificate-presence loop of `CheckpointFragment::verify`: every
digest must have a certified transaction in the mapping whose signatures
verify. -/

def checkMissingCerts (certs : List (ExecutionDigests × CertifiedTransaction))
    (c : Committee) : List ExecutionDigests → Except SuiErr Unit
  | [] => .ok ()
  | d :: rest =>
    match alLookup d certs with
    | none => .error (.missingCert d)
    | some cert =>
      match cert.verify_signature c with
      | .error e => .error e
      | .ok () => checkMissingCerts certs c rest

/-- `CheckpointFragment::verify`: sequence numbers agree, both signed
summaries verify, the diff's waypoints and identities match the summaries,
the diff self-checks, and every missing digest has a verifying certified
transaction. -/

def CheckpointFragment.verify (f : CheckpointFragment) (c : Committee) :
    Except SuiErr Unit :=
  if f.proposer.summary.sequence_number ≠ f.other.summary.sequence_number then
    .error .inconsistentSequenceNumbers
  else
    match f.proposer.verify c none with
    | .error e => .error e
    | .ok () =>
      match f.other.verify c none with
      | .error e => .error e
      | .ok () =>
        if ¬ (f.data.diff.first.waypoint = f.proposer.summary.waypoint
            ∧ f.data.diff.second.waypoint = f.other.summary.waypoint
            ∧ f.data.diff.first.key = f.proposer.authority
            ∧ f.data.diff.second.key = f.other.authority) then
          .error .waypointSummaryInconsistent
        else if ¬ f.data.diff.check then .error .waypointDiffInvalid
        else
          checkMissingCerts f.data.certs c
            (fsCanon f.data.diff.first.items ++
              fsCanon f.data.diff.second.items)

/-! ## Serialization of the fragment payload, modelled from the spec -/

/-- Encoder for a waypoint: its canonical sorted element sequence. -/

def encWaypoint (w : Waypoint) : List Nat :=
  encListWith encNat (msCanon w)

/-- Decoder for a waypoint. -/

def decWaypoint (l : List Nat) : Option (Waypoint × List Nat) :=
  match decListWith decNat l with
  | none => none
  | some (xs, rest) => some ((xs : Multiset Nat), rest)

/-- Encoder for a digest set: its canonical sorted element sequence. -/

def encFinset (s : Finset ExecutionDigests) : List Nat :=
  encListWith encNat (fsCanon s)

/-- Decoder for a digest set. -/

def decFinset (l : List Nat) : Option (Finset ExecutionDigests × List Nat) :=
  match decListWith decNat l with
  | none => none
  | some (xs, rest) => some (xs.toFinset, rest)

/-- Encoder for one side of a waypoint diff. -/

def encWWI (w : WaypointWithItems) : List Nat :=
  encNat w.key ++ (encWaypoint w.waypoint ++ encFinset w.items)

/-- Decoder for one side of a waypoint diff. -/

def decWWI (l : List Nat) : Option (WaypointWithItems × List Nat) :=
  match decNat l with
  | none => none
  | some (k, r₁) =>
    match decWaypoint r₁ with
    | none => none
    | some (w, r₂) =>
      match decFinset r₂ with
      | none => none
      | some (items, r₃) => some (⟨k, w, items⟩, r₃)

/-- Encoder for a transaction signature. -/

def encTxSig (s : TxSignature) : List Nat := [s.signedTx, s.signer]

/-- Decoder for a transaction signature. -/

def decTxSig : List Nat → Option (TxSignature × List Nat)
  | a :: b :: t => some (⟨a, b⟩, t)
  | _ => none

/-- Encoder for a certified transaction. -/

def encCert (t : CertifiedTransaction) : List Nat :=
  encNat t.digest ++ encListWith encTxSig t.sigs

/-- Decoder for a certified transaction. -/

def decCert (l : List Nat) : Option (CertifiedTransaction × List Nat) :=
  match decNat l with
  | none => none
  | some (d, r₁) =>
    match decListWith decTxSig r₁ with
    | none => none
    | some (sigs, r₂) => some (⟨d, sigs⟩, r₂)

/-- Encoder for one entry of the certificate mapping. -/

def encCertEntry (p : ExecutionDigests × CertifiedTransaction) : List Nat :=
  encNat p.1 ++ encCert p.2

/-- Decoder for one entry of the certificate mapping. -/

def decCertEntry (l : List Nat) :
    Option ((ExecutionDigests × CertifiedTransaction) × List Nat) :=
  match decNat l with
  | none => none
  | some (d, r₁) =>
    match decCert r₁ with
    | none => none
    | some (ct, r₂) => some ((d, ct), r₂)

/-- Modelled from the spec: bincode serialization of the fragment payload — a
canonical injective byte encoding.  Bytes are abstract (`Nat`); the encoding
is length-prefixed and never empty. -/

def serializeData (d : CheckpointFragmentData) : List Nat :=
  encWWI d.diff.first ++ (encWWI d.diff.second ++ encListWith encCertEntry d.certs)

/-- Decoder matching `serializeData`, consuming the whole input. -/

def decData (l : List Nat) : Option (CheckpointFragmentData × List Nat) :=
  match decWWI l with
  | none => none
  | some (w₁, r₁) =>
    match decWWI r₁ with
    | none => none
    | some (w₂, r₂) =>
      match decListWith decCertEntry r₂ with
      | none => none
      | some (certs, r₃) => some (⟨⟨w₁, w₂⟩, certs⟩, r₃)

/-- Modelled from the spec: bincode deserialization of the fragment payload;
fails on any byte sequence that is not a complete encoding. -/

def deserializeData (l : List Nat) : Option CheckpointFragmentData :=
  match decData l with
  | none => none
  | some (d, rest) => if rest = [] then some d else none

/-! ## Wire messages and chunking -/

/-- The 3 MB chunk-size constant `FRAGMENT_CHUNK_SIZE`. -/

def FRAGMENT_CHUNK_SIZE : Nat := 3 * 1000 * 1000

/-- `CheckpointFragmentMessageHeader`: both signed summaries plus the
declared chunk count. -/

structure CheckpointFragmentMessageHeader where
  proposer : SignedCheckpointProposalSummary
  other : SignedCheckpointProposalSummary
  chunk_count : Nat
deriving DecidableEq

/-- `CheckpointFragmentMessageChunk`: one slice of the serialized payload,
tagged with the shared sequence number, both identities and its index. -/

structure CheckpointFragmentMessageChunk where
  sequence_number : CheckpointSequenceNumber
  proposer : AuthorityName
  other : AuthorityName
  chunk_id : Nat
  content : List Nat
deriving DecidableEq

/-- `CheckpointFragmentMessage`: header or chunk. -/

inductive CheckpointFragmentMessage where
  | Header (h : CheckpointFragmentMessageHeader)
  | Chunk (c : CheckpointFragmentMessageChunk)
deriving DecidableEq

/-- `CheckpointFragmentMessage::message_key`: the (sequence number, proposer,
other) routing triple. -/

def CheckpointFragmentMessage.message_key :
    CheckpointFragmentMessage →
      CheckpointSequenceNumber × AuthorityName × AuthorityName
  | .Header h => (h.proposer.summary.sequence_number, h.proposer.authority,
      h.other.authority)
  | .Chunk ch => (ch.sequence_number, ch.proposer, ch.other)

/-- `CheckpointFragment::to_message_chunks`: serialize the data, split into
`FRAGMENT_CHUNK_SIZE`-byte chunks, and emit a header followed by one indexed
chunk message per slice. -/

def CheckpointFragment.to_message_chunks (f : CheckpointFragment) :
    List CheckpointFragmentMessage :=
  let proposer_name := f.proposer.authority
  let other_name := f.other.authority
  let sequence_number := f.proposer.summary.sequence_number
  let bytes := serializeData f.data
  let chunks := chunksOf FRAGMENT_CHUNK_SIZE bytes
  CheckpointFragmentMessage.Header ⟨f.proposer, f.other, chunks.length⟩
    :: chunks.enum.map (fun p => CheckpointFragmentMessage.Chunk
        ⟨sequence_number, proposer_name, other_name, p.1, p.2⟩)

/-! ## The reassembly buffer -/

/-- `PartialCheckpointFragment`: the receiver-side reassembly buffer; the
chunk `BTreeMap` is embedded as a sorted association list. -/

structure PartialCheckpointFragment where
  proposer : SignedCheckpointProposalSummary
  other : SignedCheckpointProposalSummary
  chunk_count : Nat
  chunks : List (Nat × List Nat)
deriving DecidableEq

/-- `PartialCheckpointFragment::new`: adopt the header's summaries and chunk
count, with no chunks stored. -/

def PartialCheckpointFragment.new (header : CheckpointFragmentMessageHeader) :
    PartialCheckpointFragment :=
  ⟨header.proposer, header.other, header.chunk_count, []⟩

/-- `PartialCheckpointFragment::add_chunk`: reject an index at or beyond the
declared count, otherwise store the bytes keyed by index (overwriting). -/

def PartialCheckpointFragment.add_chunk (pb : PartialCheckpointFragment)
    (chunk : CheckpointFragmentMessageChunk) :
    Except SuiErr PartialCheckpointFragment :=
  if chunk.chunk_id < pb.chunk_count then
    .ok { pb with chunks := alInsert chunk.chunk_id chunk.content pb.chunks }
  else .error (.chunkIdOutOfBound chunk.chunk_id pb.chunk_count)

/-- `PartialCheckpointFragment::is_complete`: as many stored entries as the
declared chunk count. -/

def PartialCheckpointFragment.is_complete (pb : PartialCheckpointFragment) :
    Bool :=
  pb.chunks.length == pb.chunk_count

/-- `PartialCheckpointFragment::to_fragment`: require completeness,
concatenate the stored chunks in ascending index order, deserialize, and
rebuild the fragment. -/

def PartialCheckpointFragment.to_fragment (pb : PartialCheckpointFragment) :
    Except SuiErr CheckpointFragment :=
  if ¬ pb.is_complete then .error .fragmentMissingChunks
  else
    match deserializeData ((pb.chunks.map Prod.snd).flatten) with
    | none => .error .deserializationFailed
    | some data => .ok ⟨pb.proposer, pb.other, data⟩

/-- Feed a stream of chunk messages into the buffer, stopping at the first
error (iterated `add_chunk`). -/

def PartialCheckpointFragment.add_chunks (pb : PartialCheckpointFragment) :
    List CheckpointFragmentMessageChunk → Except SuiErr PartialCheckpointFragment
  | [] => .ok pb
  | ch :: rest =>
    match pb.add_chunk ch with
    | .error e => .error e
    | .ok pb' => pb'.add_chunks rest

/-! ## Concrete fixtures used by the witnesses -/

/-- A concrete committee: epoch 0, authorities 1 and 2 with stake 1 each,
quorum threshold 1. -/
def wCommittee : Committee := ⟨0, [(1, 1), (2, 1)], 1⟩

/-- A concrete checkpoint summary at epoch 0, sequence 1. -/
def wSummary : CheckpointSummary := ⟨0, 1, [], none, ⟨0, 0, 0⟩, none⟩

/-- A concrete honestly signed checkpoint summary by authority 1. -/
def wSigned : SignedCheckpointSummary := ⟨wSummary, AuthoritySignInfo.new 0 wSummary 1⟩

/-- A concrete proposal contents set holding the single digest 3. -/
def wContents : CheckpointProposalContents := CheckpointProposalContents.new [3]

/-- A concrete proposal by authority 1 at sequence 1 over `wContents`. -/
def wProposal1 : CheckpointProposal := CheckpointProposal.new 0 1 1 wContents

/-- A concrete proposal by authority 2 at sequence 1 over `wContents`. -/
def wProposal2 : CheckpointProposal := CheckpointProposal.new 0 1 2 wContents

/-- A concrete proposal by authority 2 at sequence 2 over `wContents`. -/
def wProposal3 : CheckpointProposal := CheckpointProposal.new 0 2 2 wContents

/-- The fragment of the two concrete same-sequence proposals. -/
def wFragment : CheckpointFragment := wProposal1.fragment_with wProposal2

/-- A concrete reassembly buffer declaring two chunks and holding chunk 0. -/
def wBuffer : PartialCheckpointFragment :=
  ⟨wProposal1.signed_summary, wProposal2.signed_summary, 2, [(0, [5])]⟩

/-- A concrete in-range chunk message with index 1. -/
def wChunk : CheckpointFragmentMessageChunk := ⟨1, 1, 2, 1, [7]⟩

/-- A concrete header declaring zero chunks. -/
def wHeader0 : CheckpointFragmentMessageHeader :=
  ⟨wProposal1.signed_summary, wProposal2.signed_summary, 0⟩

/-! ## Theorems -/

theorem msCanon_coe (s : Multiset Nat) : (msCanon s : Multiset Nat) = s := by
  refine Quot.inductionOn s (fun l => ?_)
  exact Quot.sound (List.perm_insertionSort _ l)

theorem mem_msCanon (a : Nat) (s : Multiset Nat) : a ∈ msCanon s ↔ a ∈ s := by
  refine Quot.inductionOn s (fun l => ?_)
  exact (List.perm_insertionSort _ l).mem_iff

theorem mem_fsCanon (a : Nat) (s : Finset Nat) : a ∈ fsCanon s ↔ a ∈ s :=
  mem_msCanon a s.val

theorem fsCanon_toFinset (s : Finset Nat) : (fsCanon s).toFinset = s := by
  ext a
  rw [List.mem_toFinset]
  exact mem_fsCanon a s

theorem alLB_nil {α : Type} (k : Nat) : alLB k ([] : List (Nat × α)) = true := rfl

theorem alLB_cons {α : Type} (k k₁ : Nat) (v₁ : α) (t : List (Nat × α)) :
    alLB k ((k₁, v₁) :: t) = decide (k < k₁) := rfl

theorem alSorted_cons {α : Type} (k : Nat) (v : α) (t : List (Nat × α)) :
    alSorted ((k, v) :: t) = (alLB k t && alSorted t) := rfl

theorem alLB_of_le {α : Type} {k k₁ : Nat} {l : List (Nat × α)}
    (hle : k ≤ k₁) (h : alLB k₁ l = true) : alLB k l = true := by
  cases l with
  | nil => rfl
  | cons p t =>
    obtain ⟨k₂, v₂⟩ := p
    simp only [alLB_cons, decide_eq_true_eq] at h ⊢
    omega

theorem alLookup_none_of_lb {α : Type} {k : Nat} {l : List (Nat × α)}
    (hlb : alLB k l = true) (hs : alSorted l = true) : alLookup k l = none := by
  induction l with
  | nil => rfl
  | cons p t ih =>
    obtain ⟨k₁, v₁⟩ := p
    simp only [alLB_cons, decide_eq_true_eq] at hlb
    simp only [alSorted_cons, Bool.and_eq_true] at hs
    simp only [alLookup, if_neg (by omega : ¬ k = k₁)]
    exact ih (alLB_of_le (Nat.le_of_lt hlb) hs.1) hs.2

theorem alLB_insert {α : Type} {k₀ k : Nat} {v : α} {l : List (Nat × α)}
    (hk : k₀ < k) (h : alLB k₀ l = true) : alLB k₀ (alInsert k v l) = true := by
  cases l with
  | nil => simp [alInsert, alLB_cons, hk]
  | cons p t =>
    obtain ⟨k₁, v₁⟩ := p
    simp only [alLB_cons, decide_eq_true_eq] at h
    by_cases h1 : k < k₁
    · simp [alInsert, h1, alLB_cons, hk]
    · by_cases h2 : k = k₁
      · simp only [alInsert, if_neg h1, if_pos h2, alLB_cons, decide_eq_true_eq]
        omega
      · simp [alInsert, h1, h2, alLB_cons, h]

theorem alSorted_insert {α : Type} {k : Nat} {v : α} {l : List (Nat × α)}
    (hs : alSorted l = true) : alSorted (alInsert k v l) = true := by
  induction l with
  | nil => simp [alInsert, alSorted_cons, alLB_nil, alSorted]
  | cons p t ih =>
    obtain ⟨k₁, v₁⟩ := p
    simp only [alSorted_cons, Bool.and_eq_true] at hs
    by_cases h1 : k < k₁
    · simp only [alInsert, if_pos h1]
      simp [alSorted_cons, alLB_cons, h1, hs.1, hs.2]
    · by_cases h2 : k = k₁
      · simp only [alInsert, if_neg h1, if_pos h2]
        subst h2
        simp [alSorted_cons, hs.1, hs.2]
      · simp only [alInsert, if_neg h1, if_neg h2]
        have hk : k₁ < k := by omega
        simp [alSorted_cons, alLB_insert hk hs.1, ih hs.2]

theorem alLookup_insert {α : Type} (k k' : Nat) (v : α) (l : List (Nat × α)) :
    alLookup k' (alInsert k v l) =
      if k' = k then some v else alLookup k' l := by
  induction l with
  | nil => by_cases h : k' = k <;> simp [alInsert, alLookup, h]
  | cons p t ih =>
    obtain ⟨k₁, v₁⟩ := p
    by_cases h1 : k < k₁
    · by_cases h : k' = k <;> simp [alInsert, h1, alLookup, h]
    · by_cases h2 : k = k₁
      · subst h2
        by_cases h : k' = k <;> simp [alInsert, h1, alLookup, h]
      · by_cases h : k' = k
        · subst h
          simp [alInsert, h1, h2, alLookup, if_neg h2, ih]
        · by_cases h3 : k' = k₁
          · subst h3
            simp only [alInsert, if_neg h1, if_neg h2, alLookup, if_pos rfl,
              if_neg h]
            simp
          · simp [alInsert, h1, h2, alLookup, h3, ih, h]

theorem alExt {α : Type} : ∀ {l₁ l₂ : List (Nat × α)},
    alSorted l₁ = true → alSorted l₂ = true →
    (∀ k, alLookup k l₁ = alLookup k l₂) → l₁ = l₂ := by
  intro l₁
  induction l₁ with
  | nil =>
    intro l₂ _ hs₂ h
    cases l₂ with
    | nil => rfl
    | cons p t =>
      obtain ⟨k₁, v₁⟩ := p
      have := h k₁
      simp [alLookup] at this
  | cons p t ih =>
    intro l₂ hs₁ hs₂ h
    obtain ⟨k₁, v₁⟩ := p
    cases l₂ with
    | nil =>
      have := h k₁
      simp [alLookup] at this
    | cons q t₂ =>
      obtain ⟨k₂, v₂⟩ := q
      simp only [alSorted_cons, Bool.and_eq_true] at hs₁ hs₂
      have hkk : k₁ = k₂ := by
        by_contra hne
        rcases Nat.lt_or_ge k₁ k₂ with hlt | hge
        · have h₁ := h k₁
          simp only [alLookup, if_pos rfl, if_neg (by omega : ¬ k₁ = k₂)] at h₁
          have : alLookup k₁ t₂ = none :=
            alLookup_none_of_lb (alLB_of_le (Nat.le_of_lt hlt) hs₂.1) hs₂.2
          rw [this] at h₁; exact Option.noConfusion h₁
        · have hlt : k₂ < k₁ := by omega
          have h₂ := h k₂
          simp only [alLookup, if_pos rfl, if_neg (by omega : ¬ k₂ = k₁)] at h₂
          have : alLookup k₂ t = none :=
            alLookup_none_of_lb (alLB_of_le (Nat.le_of_lt hlt) hs₁.1) hs₁.2
          rw [this] at h₂; exact Option.noConfusion h₂
      subst hkk
      have hv : v₁ = v₂ := by
        have h₁ := h k₁
        simpa [alLookup] using h₁
      subst hv
      have htail : t = t₂ := by
        apply ih hs₁.2 hs₂.2
        intro k
        by_cases hk : k = k₁
        · subst hk
          rw [alLookup_none_of_lb hs₁.1 hs₁.2, alLookup_none_of_lb hs₂.1 hs₂.2]
        · have := h k
          simpa [alLookup, hk] using this
      rw [htail]

theorem alLookup_isSome_of_mem {α : Type} {k : Nat} {l : List (Nat × α)}
    (h : k ∈ l.map Prod.fst) : alLookup k l ≠ none := by
  induction l with
  | nil => simp at h
  | cons p t ih =>
    obtain ⟨k₁, v₁⟩ := p
    by_cases hk : k = k₁
    · simp [alLookup, hk]
    · simp only [List.map_cons, List.mem_cons] at h
      rcases h with h | h
      · exact absurd h hk
      · simpa [alLookup, hk] using ih h

theorem alKeys_nodup {α : Type} {l : List (Nat × α)} (hs : alSorted l = true) :
    (l.map Prod.fst).Nodup := by
  induction l with
  | nil => simp
  | cons p t ih =>
    obtain ⟨k₁, v₁⟩ := p
    simp only [alSorted_cons, Bool.and_eq_true] at hs
    simp only [List.map_cons, List.nodup_cons]
    refine ⟨?_, ih hs.2⟩
    intro hmem
    exact alLookup_isSome_of_mem hmem (alLookup_none_of_lb hs.1 hs.2)

theorem alSorted_enumFrom {α : Type} (l : List α) (i : Nat) :
    alSorted (List.enumFrom i l) = true := by
  induction l generalizing i with
  | nil => rfl
  | cons x t ih =>
    simp only [List.enumFrom, alSorted_cons, Bool.and_eq_true]
    refine ⟨?_, ih (i + 1)⟩
    cases t with
    | nil => rfl
    | cons y t' => simp [List.enumFrom, alLB_cons]

theorem alLookup_enumFrom {α : Type} (l : List α) (i k : Nat) :
    alLookup k (List.enumFrom i l) =
      if i ≤ k then l[k - i]? else none := by
  induction l generalizing i with
  | nil =>
    simp only [List.enumFrom, alLookup, List.getElem?_nil]
    by_cases h : i ≤ k <;> simp [h]
  | cons x t ih =>
    simp only [List.enumFrom, alLookup]
    by_cases hk : k = i
    · subst hk
      simp
    · rw [if_neg hk, ih (i + 1)]
      by_cases h1 : i ≤ k
      · have h2 : i + 1 ≤ k := by omega
        rw [if_pos h2, if_pos h1]
        have h3 : k - i = (k - (i + 1)) + 1 := by omega
        rw [h3, List.getElem?_cons_succ]
      · have h2 : ¬ i + 1 ≤ k := by omega
        rw [if_neg h2, if_neg h1]

theorem alSorted_enum {α : Type} (l : List α) : alSorted l.enum = true :=
  alSorted_enumFrom l 0

theorem alLookup_enum {α : Type} (l : List α) (k : Nat) :
    alLookup k l.enum = l[k]? := by
  have := alLookup_enumFrom l 0 k
  simpa [List.enum] using this

theorem chunksOf_nil {α : Type} (n : Nat) : chunksOf n ([] : List α) = [] := by
  rw [chunksOf]
  by_cases h : n = 0 <;> simp [h]

theorem chunksOf_cons {α : Type} {n : Nat} {l : List α}
    (hn : n ≠ 0) (hl : l ≠ []) :
    chunksOf n l = l.take n :: chunksOf n (l.drop n) := by
  obtain ⟨x, t, rfl⟩ : ∃ x t, l = x :: t := by
    cases l with
    | nil => exact absurd rfl hl
    | cons x t => exact ⟨x, t, rfl⟩
  rw [chunksOf]
  simp [hn]

theorem chunksOf_flatten {α : Type} (n : Nat) (hn : n ≠ 0) :
    ∀ l : List α, (chunksOf n l).flatten = l := by
  have H : ∀ m : Nat, ∀ l : List α, l.length = m → (chunksOf n l).flatten = l := by
    intro m
    induction m using Nat.strong_induction_on with
    | _ m ih =>
      intro l hlen
      by_cases hl : l = []
      · subst hl; simp [chunksOf_nil]
      · rw [chunksOf_cons hn hl]
        have hpos : 0 < l.length := List.length_pos.mpr hl
        have hdrop : (l.drop n).length < m := by
          simp only [List.length_drop]
          omega
        rw [List.flatten_cons, ih _ hdrop (l.drop n) rfl, List.take_append_drop]
  exact fun l => H l.length l rfl

theorem chunksOf_length {α : Type} (n : Nat) (hn : n ≠ 0) :
    ∀ l : List α, (chunksOf n l).length = (l.length + n - 1) / n := by
  have H : ∀ m : Nat, ∀ l : List α, l.length = m →
      (chunksOf n l).length = (l.length + n - 1) / n := by
    intro m
    induction m using Nat.strong_induction_on with
    | _ m ih =>
      intro l hlen
      by_cases hl : l = []
      · subst hl
        simp only [chunksOf_nil, List.length_nil]
        have : (0 + n - 1) / n = 0 := Nat.div_eq_of_lt (by omega)
        omega
      · rw [chunksOf_cons hn hl]
        have hpos : 0 < l.length := List.length_pos.mpr hl
        have hdrop : (l.drop n).length < m := by
          simp only [List.length_drop]; omega
        rw [List.length_cons, ih _ hdrop (l.drop n) rfl]
        simp only [List.length_drop]
        rcases Nat.lt_or_ge (l.length) n with hsmall | hbig
        · have h1 : l.length - n = 0 := by omega
          have h2 : (l.length + n - 1) / n = 1 := by
            apply Nat.div_eq_of_lt_le <;> omega
          rw [h1]
          have : (0 + n - 1) / n = 0 := Nat.div_eq_of_lt (by omega)
          omega
        · have h1 : l.length - n + n - 1 = l.length - 1 := by omega
          have h2 : l.length + n - 1 = (l.length - 1) + n := by omega
          rw [h1, h2, Nat.add_div_right _ (Nat.pos_of_ne_zero hn)]
  exact fun l => H l.length l rfl

theorem chunksOf_length_le {α : Type} (n : Nat) (hn : n ≠ 0) :
    ∀ l : List α, ∀ c ∈ chunksOf n l, c.length ≤ n := by
  have H : ∀ m : Nat, ∀ l : List α, l.length = m →
      ∀ c ∈ chunksOf n l, c.length ≤ n := by
    intro m
    induction m using Nat.strong_induction_on with
    | _ m ih =>
      intro l hlen c hc
      by_cases hl : l = []
      · subst hl; simp [chunksOf_nil] at hc
      · rw [chunksOf_cons hn hl] at hc
        have hpos : 0 < l.length := List.length_pos.mpr hl
        rcases List.mem_cons.mp hc with h | h
        · subst h
          simp [List.length_take]
        · have hdrop : (l.drop n).length < m := by
            simp only [List.length_drop]; omega
          exact ih _ hdrop (l.drop n) rfl c h
  exact fun l => H l.length l rfl

theorem rt_nat : RT encNat decNat := by
  intro a rest; rfl

theorem rt_list {α : Type} {encA : α → List Nat}
    {decA : List Nat → Option (α × List Nat)} (h : RT encA decA) :
    RT (encListWith encA) (decListWith decA) := by
  intro l rest
  simp only [encListWith, decListWith, List.cons_append]
  induction l generalizing rest with
  | nil => rfl
  | cons a t ih =>
    simp only [List.map_cons, List.flatten_cons, List.append_assoc, List.length_cons]
    show decCount decA (t.length + 1) (encA a ++ ((t.map encA).flatten ++ rest)) = _
    simp only [decCount, h a]
    have := ih rest
    simp only [List.length_cons] at this ⊢
    rw [show decCount decA t.length ((t.map encA).flatten ++ rest)
        = some (t, rest) from this]

theorem rt_pair {α β : Type} {encA : α → List Nat}
    {decA : List Nat → Option (α × List Nat)} {encB : β → List Nat}
    {decB : List Nat → Option (β × List Nat)}
    (hA : RT encA decA) (hB : RT encB decB) :
    RT (encPairWith encA encB) (decPairWith decA decB) := by
  intro p rest
  obtain ⟨a, b⟩ := p
  simp only [encPairWith, decPairWith, List.append_assoc, hA a, hB b]

theorem rt_waypoint : RT encWaypoint decWaypoint := by
  intro w rest
  simp only [encWaypoint, decWaypoint, rt_list rt_nat (msCanon w) rest]
  rw [msCanon_coe]

theorem rt_finset : RT encFinset decFinset := by
  intro s rest
  simp only [encFinset, decFinset, rt_list rt_nat (fsCanon s) rest]
  rw [fsCanon_toFinset]

theorem rt_wwi : RT encWWI decWWI := by
  intro a rest
  obtain ⟨k, w, items⟩ := a
  simp only [encWWI, encNat, List.append_assoc, List.cons_append, List.nil_append,
    decWWI, decNat, rt_waypoint w (encFinset items ++ rest), rt_finset items rest]

theorem rt_txsig : RT encTxSig decTxSig := by
  intro a rest
  obtain ⟨d, s⟩ := a
  rfl

theorem rt_cert : RT encCert decCert := by
  intro a rest
  obtain ⟨d, sigs⟩ := a
  simp only [encCert, encNat, List.cons_append, List.nil_append, decCert, decNat,
    rt_list rt_txsig sigs rest]

theorem rt_certentry : RT encCertEntry decCertEntry := by
  intro a rest
  obtain ⟨d, ct⟩ := a
  simp only [encCertEntry, encNat, List.cons_append, List.nil_append,
    decCertEntry, decNat, rt_cert ct rest]

theorem rt_data : RT serializeData decData := by
  intro a rest
  obtain ⟨⟨w₁, w₂⟩, certs⟩ := a
  simp only [serializeData, List.append_assoc, decData,
    rt_wwi w₁ (encWWI w₂ ++ (encListWith encCertEntry certs ++ rest)),
    rt_wwi w₂ (encListWith encCertEntry certs ++ rest),
    rt_list rt_certentry certs rest]

theorem deserializeData_serializeData (d : CheckpointFragmentData) :
    deserializeData (serializeData d) = some d := by
  have h := rt_data d []
  rw [List.append_nil] at h
  simp [deserializeData, h]

theorem deserializeData_nil : deserializeData [] = none := rfl

/-! ## Supporting lemmas about the model -/

theorem foldl_waypoint_insert (l : List ExecutionDigests) (acc : Waypoint) :
    l.foldl Waypoint.insert acc = acc + (l : Multiset ExecutionDigests) := by
  induction l generalizing acc with
  | nil => simp
  | cons x t ih =>
    simp only [List.foldl_cons, ih, Waypoint.insert]
    rw [← Multiset.cons_coe]
    change x ::ₘ acc + (t : Multiset ExecutionDigests)
      = acc + (x ::ₘ (t : Multiset ExecutionDigests))
    rw [Multiset.cons_add, Multiset.add_cons]

theorem proposalSummary_new_waypoint (sn : CheckpointSequenceNumber)
    (tr : CheckpointProposalContents) :
    (CheckpointProposalSummary.new sn tr).waypoint = tr.transactions.val := by
  simp only [CheckpointProposalSummary.new, foldl_waypoint_insert,
    Waypoint.default, fsCanon, msCanon_coe, zero_add]

theorem finset_union_sdiff_left (A B : Finset ExecutionDigests) :
    (A ∪ B) \ A = B \ A := by
  ext x
  simp only [Finset.mem_sdiff, Finset.mem_union]
  tauto

theorem finset_union_sdiff_right (A B : Finset ExecutionDigests) :
    (A ∪ B) \ B = A \ B := by
  ext x
  simp only [Finset.mem_sdiff, Finset.mem_union]
  tauto

/-! ## Claims -/

/-- C3: `fragment_with` produces a fragment whose diff pairs self's identity
and waypoint with exactly the digests of `B \ A` (missing from self) and
other's identity and waypoint with exactly the digests of `A \ B` (missing
from other), whose `proposer` and `other` fields are the two proposals' own
signed summaries, and whose certified-transaction mapping is empty. -/

theorem C3_fragment_with_shape (p q : CheckpointProposal) :
    (p.fragment_with q).data.diff.first.key = p.name
    ∧ (p.fragment_with q).data.diff.first.waypoint
        = p.signed_summary.summary.waypoint
    ∧ (p.fragment_with q).data.diff.first.items
        = q.transactions.transactions \ p.transactions.transactions
    ∧ (p.fragment_with q).data.diff.second.key = q.name
    ∧ (p.fragment_with q).data.diff.second.waypoint
        = q.signed_summary.summary.waypoint
    ∧ (p.fragment_with q).data.diff.second.items
        = p.transactions.transactions \ q.transactions.transactions
    ∧ (p.fragment_with q).proposer = p.signed_summary
    ∧ (p.fragment_with q).other = q.signed_summary
    ∧ (p.fragment_with q).data.certs = [] := by
  refine ⟨rfl, rfl, ?_, rfl, rfl, ?_, rfl, rfl, rfl⟩
  · exact finset_union_sdiff_left _ _
  · exact finset_union_sdiff_right _ _

/-- C8: building `CheckpointProposalContents` from two digest lists with the
same underlying set (any permutation, duplicates allowed) yields the same
transaction set, the same content digest, and an identical proposal summary
(in particular the same waypoint commitment). -/

theorem C8_order_independence (l₁ l₂ : List ExecutionDigests)
    (h : l₁.toFinset = l₂.toFinset) (sn : CheckpointSequenceNumber) :
    CheckpointProposalContents.new l₁ = CheckpointProposalContents.new l₂
    ∧ (CheckpointProposalContents.new l₁).digest
        = (CheckpointProposalContents.new l₂).digest
    ∧ (CheckpointProposalSummary.new sn (CheckpointProposalContents.new l₁)).waypoint
        = (CheckpointProposalSummary.new sn (CheckpointProposalContents.new l₂)).waypoint
    ∧ CheckpointProposalSummary.new sn (CheckpointProposalContents.new l₁)
        = CheckpointProposalSummary.new sn (CheckpointProposalContents.new l₂) := by
  have hc : CheckpointProposalContents.new l₁ = CheckpointProposalContents.new l₂ := by
    simp only [CheckpointProposalContents.new, h]
  refine ⟨hc, by rw [hc], by rw [hc], by rw [hc]⟩

/-- C8 witness: the concrete lists `[1, 2, 2]` and `[2, 1]` (a permutation
with a duplicate) give identical contents, digest and proposal summary. -/

theorem C8_order_independence_witness :
    ([1, 2, 2] : List ExecutionDigests).toFinset = ([2, 1] : List ExecutionDigests).toFinset
    ∧ (CheckpointProposalContents.new [1, 2, 2] = CheckpointProposalContents.new [2, 1]
      ∧ (CheckpointProposalContents.new [1, 2, 2]).digest
          = (CheckpointProposalContents.new [2, 1]).digest
      ∧ (CheckpointProposalSummary.new 5 (CheckpointProposalContents.new [1, 2, 2])).waypoint
          = (CheckpointProposalSummary.new 5 (CheckpointProposalContents.new [2, 1])).waypoint
      ∧ CheckpointProposalSummary.new 5 (CheckpointProposalContents.new [1, 2, 2])
          = CheckpointProposalSummary.new 5 (CheckpointProposalContents.new [2, 1])) :=
  ⟨by decide, C8_order_independence [1, 2, 2] [2, 1] (by decide) 5⟩

/-- C9: every message produced by `to_message_chunks` — the header and all
chunks — carries the same `message_key`, the (sequence number, proposer,
other) triple of the fragment. -/

theorem C9_message_key (f : CheckpointFragment) (m : CheckpointFragmentMessage)
    (hm : m ∈ f.to_message_chunks) :
    m.message_key = (f.proposer.summary.sequence_number,
      f.proposer.authority, f.other.authority) := by
  simp only [CheckpointFragment.to_message_chunks, List.mem_cons] at hm
  rcases hm with h | h
  · subst h; rfl
  · obtain ⟨p, _, rfl⟩ := List.mem_map.mp h
    rfl

/-- C9 witness: the header message of the concrete fragment `wFragment`
carries its routing key. -/
theorem C9_message_key_witness :
    (CheckpointFragmentMessage.Header ⟨wFragment.proposer, wFragment.other,
        (chunksOf FRAGMENT_CHUNK_SIZE (serializeData wFragment.data)).length⟩).message_key
      = (wFragment.proposer.summary.sequence_number,
        wFragment.proposer.authority, wFragment.other.authority) :=
  C9_message_key wFragment _ (List.mem_cons_self _ _)

theorem FRAGMENT_CHUNK_SIZE_eq : FRAGMENT_CHUNK_SIZE = 3000000 := rfl

/-- C6: `to_message_chunks` emits exactly one header first, declaring
`chunk_count` equal to the ceiling of the serialized payload length divided
by the 3,000,000-byte chunk size, followed by one chunk per slice with
zero-based consecutive indices; and a 7,000,000-byte payload splits into
exactly 3 chunks, two of 3,000,000 bytes and one of 1,000,000 bytes. -/
theorem C6_chunking (f : CheckpointFragment) (l : List Nat)
    (hlen : l.length = 7000000) :
    f.to_message_chunks
      = CheckpointFragmentMessage.Header ⟨f.proposer, f.other,
          ((serializeData f.data).length + FRAGMENT_CHUNK_SIZE - 1) / FRAGMENT_CHUNK_SIZE⟩
        :: (chunksOf FRAGMENT_CHUNK_SIZE (serializeData f.data)).enum.map
          (fun p => CheckpointFragmentMessage.Chunk
            ⟨f.proposer.summary.sequence_number, f.proposer.authority,
              f.other.authority, p.1, p.2⟩)
    ∧ (chunksOf FRAGMENT_CHUNK_SIZE (serializeData f.data)).enum.map Prod.fst
      = List.range (((serializeData f.data).length + FRAGMENT_CHUNK_SIZE - 1)
          / FRAGMENT_CHUNK_SIZE)
    ∧ (chunksOf FRAGMENT_CHUNK_SIZE l).length = 3
    ∧ (chunksOf FRAGMENT_CHUNK_SIZE l).map List.length
      = [3000000, 3000000, 1000000] := by
  have hne : FRAGMENT_CHUNK_SIZE ≠ 0 := by rw [FRAGMENT_CHUNK_SIZE_eq]; omega
  have hcl := chunksOf_length FRAGMENT_CHUNK_SIZE hne (serializeData f.data)
  have h1 : l ≠ [] := by
    intro h; rw [h] at hlen; simp at hlen
  have hd1 : (l.drop 3000000).length = 4000000 := by
    rw [List.length_drop, hlen]
  have h2 : l.drop 3000000 ≠ [] := by
    intro h; rw [h] at hd1; simp at hd1
  have hd2 : ((l.drop 3000000).drop 3000000).length = 1000000 := by
    rw [List.length_drop, hd1]
  have h3 : (l.drop 3000000).drop 3000000 ≠ [] := by
    intro h; rw [h] at hd2; simp at hd2
  have hd3 : (((l.drop 3000000).drop 3000000).drop 3000000).length = 0 := by
    rw [List.length_drop, hd2]
  have h4 : ((l.drop 3000000).drop 3000000).drop 3000000 = [] :=
    List.length_eq_zero.mp hd3
  have hne3 : (3000000 : Nat) ≠ 0 := by omega
  have hchunks : chunksOf FRAGMENT_CHUNK_SIZE l
      = [l.take 3000000, (l.drop 3000000).take 3000000,
          ((l.drop 3000000).drop 3000000).take 3000000] := by
    rw [FRAGMENT_CHUNK_SIZE_eq, chunksOf_cons hne3 h1, chunksOf_cons hne3 h2,
      chunksOf_cons hne3 h3, h4, chunksOf_nil]
  refine ⟨?_, ?_, ?_, ?_⟩
  · simp only [CheckpointFragment.to_message_chunks, hcl]
  · rw [List.enum_map_fst, hcl]
  · rw [hchunks]
    rfl
  · rw [hchunks]
    simp only [List.map_cons, List.map_nil, List.length_take, hlen, hd1, hd2]
    norm_num

/-- C6 witness: a concrete fragment and the concrete 7,000,000-byte payload
`List.replicate 7000000 0`. -/
theorem C6_chunking_witness :
    (List.replicate 7000000 (0 : Nat)).length = 7000000
    ∧ (wFragment.to_message_chunks
        = CheckpointFragmentMessage.Header ⟨wFragment.proposer, wFragment.other,
            ((serializeData wFragment.data).length + FRAGMENT_CHUNK_SIZE - 1)
              / FRAGMENT_CHUNK_SIZE⟩
          :: (chunksOf FRAGMENT_CHUNK_SIZE (serializeData wFragment.data)).enum.map
            (fun p => CheckpointFragmentMessage.Chunk
              ⟨wFragment.proposer.summary.sequence_number, wFragment.proposer.authority,
                wFragment.other.authority, p.1, p.2⟩)
      ∧ (chunksOf FRAGMENT_CHUNK_SIZE (serializeData wFragment.data)).enum.map Prod.fst
        = List.range (((serializeData wFragment.data).length + FRAGMENT_CHUNK_SIZE - 1)
            / FRAGMENT_CHUNK_SIZE)
      ∧ (chunksOf FRAGMENT_CHUNK_SIZE (List.replicate 7000000 (0 : Nat))).length = 3
      ∧ (chunksOf FRAGMENT_CHUNK_SIZE (List.replicate 7000000 (0 : Nat))).map List.length
        = [3000000, 3000000, 1000000]) :=
  ⟨List.length_replicate 7000000 0,
    C6_chunking wFragment (List.replicate 7000000 0) (List.length_replicate 7000000 0)⟩

/-- C10: a buffer built from a header declaring zero chunks is complete
immediately, rejects every chunk as out of bound, and its `to_fragment` does
not report missing chunks but attempts deserialization of the empty byte
sequence, which fails — so completeness alone does not guarantee a valid
fragment. -/
theorem C10_zero_chunk_header (hdr : CheckpointFragmentMessageHeader)
    (h0 : hdr.chunk_count = 0) :
    (PartialCheckpointFragment.new hdr).is_complete = true
    ∧ (∀ ch, (PartialCheckpointFragment.new hdr).add_chunk ch
        = .error (.chunkIdOutOfBound ch.chunk_id 0))
    ∧ (PartialCheckpointFragment.new hdr).to_fragment = .error .deserializationFailed
    ∧ (PartialCheckpointFragment.new hdr).to_fragment ≠ .error .fragmentMissingChunks
    ∧ ∀ fr, (PartialCheckpointFragment.new hdr).to_fragment ≠ .ok fr := by
  have hto : (PartialCheckpointFragment.new hdr).to_fragment
      = .error .deserializationFailed := by
    simp [PartialCheckpointFragment.new, PartialCheckpointFragment.to_fragment,
      PartialCheckpointFragment.is_complete, h0, deserializeData_nil]
  refine ⟨?_, ?_, hto, ?_, ?_⟩
  · simp [PartialCheckpointFragment.new, PartialCheckpointFragment.is_complete, h0]
  · intro ch
    simp [PartialCheckpointFragment.new, PartialCheckpointFragment.add_chunk, h0]
  · rw [hto]; simp
  · intro fr
    rw [hto]; simp

/-- C10 witness: the concrete zero-chunk header `wHeader0`. -/
theorem C10_zero_chunk_header_witness :
    wHeader0.chunk_count = 0
    ∧ ((PartialCheckpointFragment.new wHeader0).is_complete = true
      ∧ (∀ ch, (PartialCheckpointFragment.new wHeader0).add_chunk ch
          = .error (.chunkIdOutOfBound ch.chunk_id 0))
      ∧ (PartialCheckpointFragment.new wHeader0).to_fragment
          = .error .deserializationFailed
      ∧ (PartialCheckpointFragment.new wHeader0).to_fragment
          ≠ .error .fragmentMissingChunks
      ∧ ∀ fr, (PartialCheckpointFragment.new wHeader0).to_fragment ≠ .ok fr) :=
  ⟨rfl, C10_zero_chunk_header wHeader0 rfl⟩

/-- C5: `add_chunk` errors exactly when the index is not strictly below the
declared count, otherwise stores the bytes keyed by index (overwriting, with
all other indices untouched, keeping the map invariant); `is_complete` holds
exactly when the number of distinct stored indices equals the declared
count; and `to_fragment` on an incomplete buffer reports missing chunks. -/
theorem C5_buffer (pb : PartialCheckpointFragment)
    (ch : CheckpointFragmentMessageChunk) (hs : alSorted pb.chunks = true) :
    ((∃ e, pb.add_chunk ch = .error e) ↔ ¬ ch.chunk_id < pb.chunk_count)
    ∧ (ch.chunk_id < pb.chunk_count →
        ∃ pb', pb.add_chunk ch = .ok pb'
          ∧ pb'.chunks = alInsert ch.chunk_id ch.content pb.chunks
          ∧ alLookup ch.chunk_id pb'.chunks = some ch.content
          ∧ (∀ k, k ≠ ch.chunk_id → alLookup k pb'.chunks = alLookup k pb.chunks)
          ∧ alSorted pb'.chunks = true)
    ∧ (pb.is_complete = true ↔ (pb.chunks.map Prod.fst).toFinset.card = pb.chunk_count)
    ∧ (pb.is_complete = false → pb.to_fragment = .error .fragmentMissingChunks) := by
  refine ⟨?_, ?_, ?_, ?_⟩
  · by_cases h : ch.chunk_id < pb.chunk_count
    · simp [PartialCheckpointFragment.add_chunk, h]
    · simp [PartialCheckpointFragment.add_chunk, h]
  · intro h
    refine ⟨{ pb with chunks := alInsert ch.chunk_id ch.content pb.chunks },
      by simp [PartialCheckpointFragment.add_chunk, h], rfl, ?_, ?_, ?_⟩
    · rw [alLookup_insert]
      simp
    · intro k hk
      rw [alLookup_insert, if_neg hk]
    · exact alSorted_insert hs
  · have hcard : (pb.chunks.map Prod.fst).toFinset.card = pb.chunks.length := by
      rw [List.toFinset_card_of_nodup (alKeys_nodup hs), List.length_map]
    rw [hcard]
    simp [PartialCheckpointFragment.is_complete]
  · intro h
    simp [PartialCheckpointFragment.to_fragment, h]

/-- C5 witness: the concrete buffer `wBuffer` (two declared chunks, chunk 0
stored) and the in-range chunk `wChunk`. -/
theorem C5_buffer_witness :
    alSorted wBuffer.chunks = true
    ∧ (((∃ e, wBuffer.add_chunk wChunk = .error e) ↔ ¬ wChunk.chunk_id < wBuffer.chunk_count)
      ∧ (wChunk.chunk_id < wBuffer.chunk_count →
          ∃ pb', wBuffer.add_chunk wChunk = .ok pb'
            ∧ pb'.chunks = alInsert wChunk.chunk_id wChunk.content wBuffer.chunks
            ∧ alLookup wChunk.chunk_id pb'.chunks = some wChunk.content
            ∧ (∀ k, k ≠ wChunk.chunk_id → alLookup k pb'.chunks = alLookup k wBuffer.chunks)
            ∧ alSorted pb'.chunks = true)
      ∧ (wBuffer.is_complete = true
          ↔ (wBuffer.chunks.map Prod.fst).toFinset.card = wBuffer.chunk_count)
      ∧ (wBuffer.is_complete = false
          → wBuffer.to_fragment = .error .fragmentMissingChunks)) :=
  ⟨by decide, C5_buffer wBuffer wChunk (by decide)⟩

/-! ## Fragment verification: helper characterizations -/

theorem authSignInfo_new_verify {M : Type} [DecidableEq M] (e : EpochId)
    (m : M) (a : AuthorityName) (c : Committee) (h : c.weight a ≠ 0) :
    (AuthoritySignInfo.new e m a).verify m c = true := by
  simp [AuthoritySignInfo.new, AuthoritySignInfo.verify, h]

theorem checkMissingCerts_ok_iff
    (certs : List (ExecutionDigests × CertifiedTransaction)) (c : Committee)
    (ds : List ExecutionDigests) :
    checkMissingCerts certs c ds = .ok () ↔
      ∀ d ∈ ds, ∃ ct, alLookup d certs = some ct
        ∧ ct.verify_signature c = .ok () := by
  induction ds with
  | nil => simp [checkMissingCerts]
  | cons d rest ih =>
    cases hl : alLookup d certs with
    | none =>
      simp only [checkMissingCerts, hl]
      constructor
      · intro h
        exact Except.noConfusion h
      · intro h
        obtain ⟨ct, hct, _⟩ := h d (List.mem_cons_self d rest)
        rw [hl] at hct
        exact Option.noConfusion hct
    | some ct =>
      cases hv : ct.verify_signature c with
      | error e =>
        simp only [checkMissingCerts, hl, hv]
        constructor
        · intro h
          exact Except.noConfusion h
        · intro h
          obtain ⟨ct', hct', hv'⟩ := h d (List.mem_cons_self d rest)
          rw [hl] at hct'
          obtain rfl : ct = ct' := Option.some.inj hct'
          rw [hv] at hv'
          exact Except.noConfusion hv'
      | ok u =>
        cases u
        simp only [checkMissingCerts, hl, hv]
        rw [ih]
        constructor
        · intro h d' hd'
          rcases List.mem_cons.mp hd' with rfl | hd'
          · exact ⟨ct, hl, hv⟩
          · exact h d' hd'
        · intro h d' hd'
          exact h d' (List.mem_cons_of_mem _ hd')

theorem fragment_verify_ok_iff (f : CheckpointFragment) (c : Committee) :
    f.verify c = .ok () ↔
      (f.proposer.summary.sequence_number = f.other.summary.sequence_number
       ∧ f.proposer.verify c none = .ok ()
       ∧ f.other.verify c none = .ok ()
       ∧ f.data.diff.first.waypoint = f.proposer.summary.waypoint
       ∧ f.data.diff.second.waypoint = f.other.summary.waypoint
       ∧ f.data.diff.first.key = f.proposer.authority
       ∧ f.data.diff.second.key = f.other.authority
       ∧ f.data.diff.check = true
       ∧ ∀ d ∈ f.data.diff.first.items ∪ f.data.diff.second.items,
           ∃ ct, alLookup d f.data.certs = some ct
             ∧ ct.verify_signature c = .ok ()) := by
  by_cases hseq : f.proposer.summary.sequence_number = f.other.summary.sequence_number
  · cases h1 : f.proposer.verify c none with
    | error e =>
      simp only [CheckpointFragment.verify, if_neg (not_not_intro hseq), h1]
      constructor
      · intro h; exact Except.noConfusion h
      · intro h
        exact Except.noConfusion h.2.1
    | ok u =>
      cases u
      cases h2 : f.other.verify c none with
      | error e =>
        simp only [CheckpointFragment.verify, if_neg (not_not_intro hseq), h1, h2]
        constructor
        · intro h; exact Except.noConfusion h
        · intro h
          exact Except.noConfusion h.2.2.1
      | ok u =>
        cases u
        by_cases hw : (f.data.diff.first.waypoint = f.proposer.summary.waypoint
            ∧ f.data.diff.second.waypoint = f.other.summary.waypoint
            ∧ f.data.diff.first.key = f.proposer.authority
            ∧ f.data.diff.second.key = f.other.authority)
        · by_cases hchk : f.data.diff.check = true
          · simp only [CheckpointFragment.verify, if_neg (not_not_intro hseq),
              h1, h2, if_neg (not_not_intro hw), if_neg (not_not_intro hchk)]
            rw [checkMissingCerts_ok_iff]
            constructor
            · intro h
              refine ⟨hseq, trivial, trivial, hw.1, hw.2.1, hw.2.2.1, hw.2.2.2, hchk, ?_⟩
              intro d hd
              rcases Finset.mem_union.mp hd with h' | h'
              · exact h d (List.mem_append.mpr
                  (Or.inl ((mem_fsCanon _ _).mpr h')))
              · exact h d (List.mem_append.mpr
                  (Or.inr ((mem_fsCanon _ _).mpr h')))
            · intro h d hd
              rcases List.mem_append.mp hd with h' | h'
              · exact h.2.2.2.2.2.2.2.2 d (Finset.mem_union.mpr
                  (Or.inl ((mem_fsCanon _ _).mp h')))
              · exact h.2.2.2.2.2.2.2.2 d (Finset.mem_union.mpr
                  (Or.inr ((mem_fsCanon _ _).mp h')))
          · simp only [CheckpointFragment.verify, if_neg (not_not_intro hseq),
              h1, h2, if_neg (not_not_intro hw), if_pos hchk]
            constructor
            · intro h; exact Except.noConfusion h
            · intro h
              exact absurd h.2.2.2.2.2.2.2.1 hchk
        · simp only [CheckpointFragment.verify, if_neg (not_not_intro hseq),
            h1, h2, if_pos hw]
          constructor
          · intro h; exact Except.noConfusion h
          · intro h
            exact absurd ⟨h.2.2.2.1, h.2.2.2.2.1, h.2.2.2.2.2.1, h.2.2.2.2.2.2.1⟩ hw
  · simp only [CheckpointFragment.verify, if_pos hseq]
    constructor
    · intro h; exact Except.noConfusion h
    · intro h
      exact absurd h.1 hseq

/-- C2: `CheckpointFragment::verify` succeeds exactly when the two embedded
summaries share a sequence number, each signed summary verifies, the diff's
waypoints and identities equal the summaries' commitments and signers, the
diff self-check passes, and every missing digest has a verifying certified
transaction in the mapping; in particular a fragment built by `fragment_with`
from proposals at different sequence numbers is rejected by `verify` even
though construction does not prevent it. -/
theorem C2_fragment_verify (f : CheckpointFragment) (c : Committee) :
    (f.verify c = .ok () ↔
      (f.proposer.summary.sequence_number = f.other.summary.sequence_number
       ∧ f.proposer.verify c none = .ok ()
       ∧ f.other.verify c none = .ok ()
       ∧ f.data.diff.first.waypoint = f.proposer.summary.waypoint
       ∧ f.data.diff.second.waypoint = f.other.summary.waypoint
       ∧ f.data.diff.first.key = f.proposer.authority
       ∧ f.data.diff.second.key = f.other.authority
       ∧ f.data.diff.check = true
       ∧ ∀ d ∈ f.data.diff.first.items ∪ f.data.diff.second.items,
           ∃ ct, alLookup d f.data.certs = some ct
             ∧ ct.verify_signature c = .ok ()))
    ∧ ∀ p q : CheckpointProposal,
        p.sequence_number ≠ q.sequence_number →
        (p.fragment_with q).verify c = .error .inconsistentSequenceNumbers := by
  refine ⟨fragment_verify_ok_iff f c, ?_⟩
  intro p q hpq
  unfold CheckpointFragment.verify
  rw [if_pos]
  exact hpq

/-- C7: two proposals at the same sequence number, signed by committee
members, over identical digest sets yield a fragment whose diff lists zero
missing items on both sides and whose certificate mapping is empty, and
whose verification against the committee succeeds. -/
theorem C7_identical_sets (c : Committee) (e : EpochId)
    (sn : CheckpointSequenceNumber) (a₁ a₂ : AuthorityName)
    (S : CheckpointProposalContents)
    (h₁ : c.weight a₁ ≠ 0) (h₂ : c.weight a₂ ≠ 0) :
    ((CheckpointProposal.new e sn a₁ S).fragment_with
        (CheckpointProposal.new e sn a₂ S)).data.diff.first.items = ∅
    ∧ ((CheckpointProposal.new e sn a₁ S).fragment_with
        (CheckpointProposal.new e sn a₂ S)).data.diff.second.items = ∅
    ∧ ((CheckpointProposal.new e sn a₁ S).fragment_with
        (CheckpointProposal.new e sn a₂ S)).data.certs = []
    ∧ ((CheckpointProposal.new e sn a₁ S).fragment_with
        (CheckpointProposal.new e sn a₂ S)).verify c = .ok () := by
  have hitems : (S.transactions ∪ S.transactions) \ S.transactions = ∅ := by
    rw [Finset.union_self, Finset.sdiff_self]
  refine ⟨hitems, hitems, rfl, ?_⟩
  rw [fragment_verify_ok_iff]
  have hv₁ := authSignInfo_new_verify e (CheckpointProposalSummary.new sn S) a₁ c h₁
  have hv₂ := authSignInfo_new_verify e (CheckpointProposalSummary.new sn S) a₂ c h₂
  refine ⟨rfl, ?_, ?_, rfl, rfl, rfl, rfl, ?_, ?_⟩
  · show SignedCheckpointProposalSummary.verify
      ⟨CheckpointProposalSummary.new sn S,
        AuthoritySignInfo.new e (CheckpointProposalSummary.new sn S) a₁⟩ c none
      = .ok ()
    simp [SignedCheckpointProposalSummary.verify, hv₁]
  · show SignedCheckpointProposalSummary.verify
      ⟨CheckpointProposalSummary.new sn S,
        AuthoritySignInfo.new e (CheckpointProposalSummary.new sn S) a₂⟩ c none
      = .ok ()
    simp [SignedCheckpointProposalSummary.verify, hv₂]
  · show WaypointDiff.check _ = true
    simp only [WaypointDiff.check, decide_eq_true_eq]
    rfl
  · have h0 : ((CheckpointProposal.new e sn a₁ S).fragment_with
        (CheckpointProposal.new e sn a₂ S)).data.diff.first.items
        ∪ ((CheckpointProposal.new e sn a₁ S).fragment_with
        (CheckpointProposal.new e sn a₂ S)).data.diff.second.items = ∅ := by
      show ((S.transactions ∪ S.transactions) \ S.transactions)
          ∪ ((S.transactions ∪ S.transactions) \ S.transactions) = ∅
      rw [hitems, Finset.union_empty]
    intro d hd
    rw [h0] at hd
    exact absurd hd (Finset.not_mem_empty d)

/-- C7 witness: the concrete committee `wCommittee`, authorities 1 and 2, and
the shared single-digest contents `wContents` at sequence 1. -/
theorem C7_identical_sets_witness :
    wCommittee.weight 1 ≠ 0 ∧ wCommittee.weight 2 ≠ 0
    ∧ (((CheckpointProposal.new 0 1 1 wContents).fragment_with
          (CheckpointProposal.new 0 1 2 wContents)).data.diff.first.items = ∅
      ∧ ((CheckpointProposal.new 0 1 1 wContents).fragment_with
          (CheckpointProposal.new 0 1 2 wContents)).data.diff.second.items = ∅
      ∧ ((CheckpointProposal.new 0 1 1 wContents).fragment_with
          (CheckpointProposal.new 0 1 2 wContents)).data.certs = []
      ∧ ((CheckpointProposal.new 0 1 1 wContents).fragment_with
          (CheckpointProposal.new 0 1 2 wContents)).verify wCommittee = .ok ()) :=
  ⟨by decide, by decide,
    C7_identical_sets wCommittee 0 1 1 2 wContents (by decide) (by decide)⟩

/-! ## Certificate aggregation: helper characterizations -/

theorem quorum_verify_ok_iff (q : AuthorityWeakQuorumSignInfo)
    (m : CheckpointSummary) (c : Committee) :
    q.verify m c = .ok () ↔
      (c.quorum_threshold ≤ q.signersStake c
       ∧ ∀ s ∈ q.signatures, s.verify m c = true) := by
  unfold AuthorityWeakQuorumSignInfo.verify
  by_cases h1 : c.quorum_threshold ≤ q.signersStake c
  · rw [if_neg (not_not_intro h1)]
    by_cases h2 : q.signatures.all (fun s => s.verify m c) = true
    · rw [if_neg (not_not_intro h2)]
      constructor
      · intro _
        exact ⟨h1, List.all_eq_true.mp h2⟩
      · intro _
        rfl
    · rw [if_pos h2]
      constructor
      · intro h; exact Except.noConfusion h
      · intro h
        exact absurd (List.all_eq_true.mpr h.2) h2
  · rw [if_pos h1]
    constructor
    · intro h; exact Except.noConfusion h
    · intro h; exact absurd h.1 h1

theorem cert_verify_none_ok_iff (cert : CertifiedCheckpointSummary)
    (c : Committee) :
    cert.verify c none = .ok () ↔
      (cert.summary.epoch = c.epoch
       ∧ cert.auth_signature.verify cert.summary c = .ok ()) := by
  by_cases he : cert.summary.epoch = c.epoch
  · cases hv : cert.auth_signature.verify cert.summary c with
    | error e =>
      simp only [CertifiedCheckpointSummary.verify, if_neg (not_not_intro he), hv]
      constructor
      · intro h; exact Except.noConfusion h
      · intro h; exact Except.noConfusion h.2
    | ok u =>
      cases u
      simp only [CertifiedCheckpointSummary.verify, if_neg (not_not_intro he), hv]
      simp [he]
  · simp only [CertifiedCheckpointSummary.verify, if_pos he]
    constructor
    · intro h; exact Except.noConfusion h
    · intro h; exact absurd h.1 he

theorem aggregate_ok_verify (signed : List SignedCheckpointSummary)
    (c : Committee) (cert : CertifiedCheckpointSummary)
    (h : CertifiedCheckpointSummary.aggregate signed c = .ok cert) :
    cert.verify c none = .ok () := by
  cases signed with
  | nil => exact Except.noConfusion h
  | cons s₀ rest =>
    by_cases hall : (s₀ :: rest).all (fun s => s.summary.epoch == c.epoch) = true
    · simp only [CertifiedCheckpointSummary.aggregate] at h
      rw [if_neg (not_not_intro hall)] at h
      set cert₀ : CertifiedCheckpointSummary :=
        { summary := s₀.summary
          auth_signature := AuthorityWeakQuorumSignInfo.new_from_auth_sign_infos
            ((s₀ :: rest).map (fun v => v.auth_signature)) c } with hcert₀
      cases hv : cert₀.verify c none with
      | error e =>
        rw [hv] at h
        exact Except.noConfusion h
      | ok u =>
        cases u
        rw [hv] at h
        obtain rfl := Except.ok.inj h
        exact hv
    · simp only [CertifiedCheckpointSummary.aggregate] at h
      rw [if_pos hall] at h
      exact Except.noConfusion h

/-- C1: aggregation over a non-empty list of signed summaries at the
committee's epoch, all attesting one payload with individually valid
signatures, succeeds exactly when the signers' combined stake meets the
quorum threshold; it errors on an empty input, on any epoch mismatch and on
any invalid individual signature; and every certificate it returns passes
verification against the same committee. -/
theorem C1_aggregate (c : Committee) (P : CheckpointSummary)
    (signed : List SignedCheckpointSummary)
    (hne : signed ≠ [])
    (hP : ∀ s ∈ signed, s.summary = P)
    (hep : P.epoch = c.epoch)
    (hsig : ∀ s ∈ signed, s.auth_signature.verify P c = true) :
    ((∃ cert, CertifiedCheckpointSummary.aggregate signed c = .ok cert)
      ↔ c.quorum_threshold ≤
          (AuthorityWeakQuorumSignInfo.new_from_auth_sign_infos
            (signed.map (fun s => s.auth_signature)) c).signersStake c)
    ∧ (∀ cert, CertifiedCheckpointSummary.aggregate signed c = .ok cert →
        cert.verify c none = .ok ())
    ∧ CertifiedCheckpointSummary.aggregate [] c
        = .error .needAtLeastOneSignedCheckpoint
    ∧ (∀ sig' : List SignedCheckpointSummary,
        (∃ s ∈ sig', s.summary.epoch ≠ c.epoch) →
        ∃ err, CertifiedCheckpointSummary.aggregate sig' c = .error err)
    ∧ (∀ sig' : List SignedCheckpointSummary,
        (∀ s ∈ sig', s.summary = P) →
        (∃ s ∈ sig', s.auth_signature.verify P c = false) →
        ∃ err, CertifiedCheckpointSummary.aggregate sig' c = .error err) := by
  obtain ⟨s₀, rest, rfl⟩ := List.exists_cons_of_ne_nil hne
  have hall : (s₀ :: rest).all (fun s => s.summary.epoch == c.epoch) = true := by
    rw [List.all_eq_true]
    intro s hs
    rw [beq_iff_eq, hP s hs]
    exact hep
  have hs₀ : s₀.summary = P := hP s₀ (List.mem_cons_self s₀ rest)
  refine ⟨?_, fun cert h => aggregate_ok_verify _ c cert h, rfl, ?_, ?_⟩
  · simp only [CertifiedCheckpointSummary.aggregate]
    rw [if_neg (not_not_intro hall)]
    set cert₀ : CertifiedCheckpointSummary :=
      { summary := s₀.summary
        auth_signature := AuthorityWeakQuorumSignInfo.new_from_auth_sign_infos
          ((s₀ :: rest).map (fun v => v.auth_signature)) c } with hcert₀
    have hepo : cert₀.summary.epoch = c.epoch := by
      show s₀.summary.epoch = c.epoch
      rw [hs₀]
      exact hep
    have hsigs : ∀ s ∈ cert₀.auth_signature.signatures,
        s.verify cert₀.summary c = true := by
      intro s hsmem
      obtain ⟨t, ht, rfl⟩ := List.mem_map.mp hsmem
      show t.auth_signature.verify s₀.summary c = true
      rw [hs₀]
      exact hsig t ht
    cases hv : cert₀.verify c none with
    | error e =>
      constructor
      · rintro ⟨cert, hcert⟩
        exact Except.noConfusion hcert
      · intro hst
        have hok : cert₀.verify c none = .ok () :=
          (cert_verify_none_ok_iff cert₀ c).mpr
            ⟨hepo, (quorum_verify_ok_iff _ _ c).mpr ⟨hst, hsigs⟩⟩
        rw [hv] at hok
        exact Except.noConfusion hok
    | ok u =>
      cases u
      constructor
      · intro _
        exact ((quorum_verify_ok_iff _ _ c).mp
          ((cert_verify_none_ok_iff cert₀ c).mp hv).2).1
      · intro _
        exact ⟨cert₀, rfl⟩
  · rintro sig' ⟨s, hsmem, hsne⟩
    cases sig' with
    | nil => simp at hsmem
    | cons t rest' =>
      have hallf : ¬ ((t :: rest').all
          (fun s => s.summary.epoch == c.epoch) = true) := by
        intro hall'
        exact hsne (beq_iff_eq.mp (List.all_eq_true.mp hall' s hsmem))
      refine ⟨.epochMismatch, ?_⟩
      simp only [CertifiedCheckpointSummary.aggregate]
      rw [if_pos hallf]
  · rintro sig' hP' ⟨s, hsmem, hsf⟩
    cases sig' with
    | nil => simp at hsmem
    | cons t rest' =>
      by_cases hall' : (t :: rest').all
          (fun s => s.summary.epoch == c.epoch) = true
      · simp only [CertifiedCheckpointSummary.aggregate]
        rw [if_neg (not_not_intro hall')]
        set cert₁ : CertifiedCheckpointSummary :=
          { summary := t.summary
            auth_signature := AuthorityWeakQuorumSignInfo.new_from_auth_sign_infos
              ((t :: rest').map (fun v => v.auth_signature)) c } with hcert₁
        cases hv : cert₁.verify c none with
        | error e => exact ⟨e, rfl⟩
        | ok u =>
          cases u
          exfalso
          have h2 := ((cert_verify_none_ok_iff cert₁ c).mp hv).2
          have h3 := ((quorum_verify_ok_iff _ _ c).mp h2).2
          have h4 := h3 s.auth_signature (List.mem_map.mpr ⟨s, hsmem, rfl⟩)
          have hms : cert₁.summary = P := by
            show t.summary = P
            exact hP' t (List.mem_cons_self t rest')
          rw [hms] at h4
          rw [hsf] at h4
          exact Bool.noConfusion h4
      · refine ⟨.epochMismatch, ?_⟩
        simp only [CertifiedCheckpointSummary.aggregate]
        rw [if_pos hall']

/-- C1 witness: the concrete committee `wCommittee` with the single honestly
signed summary `wSigned` attesting `wSummary`. -/
theorem C1_aggregate_witness :
    [wSigned] ≠ ([] : List SignedCheckpointSummary)
    ∧ (∀ s ∈ [wSigned], s.summary = wSummary)
    ∧ wSummary.epoch = wCommittee.epoch
    ∧ (∀ s ∈ [wSigned], s.auth_signature.verify wSummary wCommittee = true)
    ∧ (((∃ cert, CertifiedCheckpointSummary.aggregate [wSigned] wCommittee = .ok cert)
        ↔ wCommittee.quorum_threshold ≤
            (AuthorityWeakQuorumSignInfo.new_from_auth_sign_infos
              ([wSigned].map (fun s => s.auth_signature)) wCommittee).signersStake
              wCommittee)
      ∧ (∀ cert, CertifiedCheckpointSummary.aggregate [wSigned] wCommittee = .ok cert →
          cert.verify wCommittee none = .ok ())
      ∧ CertifiedCheckpointSummary.aggregate [] wCommittee
          = .error .needAtLeastOneSignedCheckpoint
      ∧ (∀ sig' : List SignedCheckpointSummary,
          (∃ s ∈ sig', s.summary.epoch ≠ wCommittee.epoch) →
          ∃ err, CertifiedCheckpointSummary.aggregate sig' wCommittee = .error err)
      ∧ (∀ sig' : List SignedCheckpointSummary,
          (∀ s ∈ sig', s.summary = wSummary) →
          (∃ s ∈ sig', s.auth_signature.verify wSummary wCommittee = false) →
          ∃ err, CertifiedCheckpointSummary.aggregate sig' wCommittee = .error err)) :=
  ⟨by decide, by decide, by decide, by decide,
    C1_aggregate wCommittee wSummary [wSigned] (by decide) (by decide)
      (by decide) (by decide)⟩

/-! ## Chunk reassembly: helper characterizations -/

theorem mem_enumFrom_iff {α : Type} (l : List α) :
    ∀ (i : Nat) (p : Nat × α),
      p ∈ List.enumFrom i l ↔ (i ≤ p.1 ∧ l[p.1 - i]? = some p.2) := by
  induction l with
  | nil =>
    intro i p
    simp
  | cons x t ih =>
    rintro i ⟨p1, p2⟩
    simp only [List.enumFrom, List.mem_cons, ih (i + 1)]
    constructor
    · rintro (h | ⟨h1, h2⟩)
      · rw [Prod.mk.injEq] at h
        obtain ⟨rfl, rfl⟩ := h
        exact ⟨Nat.le_refl p1, by simp⟩
      · refine ⟨by omega, ?_⟩
        have h3 : p1 - i = (p1 - (i + 1)) + 1 := by omega
        rw [h3, List.getElem?_cons_succ]
        exact h2
    · rintro ⟨h1, h2⟩
      by_cases hpi : p1 = i
      · subst hpi
        rw [Nat.sub_self, List.getElem?_cons_zero] at h2
        obtain rfl := Option.some.inj h2
        left
        rfl
      · right
        refine ⟨by omega, ?_⟩
        have h3 : p1 - i = (p1 - (i + 1)) + 1 := by omega
        rw [h3, List.getElem?_cons_succ] at h2
        exact h2

theorem chunk_mem_to_message_chunks (f : CheckpointFragment)
    (mc : CheckpointFragmentMessageChunk) :
    CheckpointFragmentMessage.Chunk mc ∈ f.to_message_chunks ↔
      (mc.sequence_number = f.proposer.summary.sequence_number
       ∧ mc.proposer = f.proposer.authority
       ∧ mc.other = f.other.authority
       ∧ (chunksOf FRAGMENT_CHUNK_SIZE (serializeData f.data))[mc.chunk_id]?
           = some mc.content) := by
  obtain ⟨ms, mp, mo, mi, mcont⟩ := mc
  simp only [CheckpointFragment.to_message_chunks, List.mem_cons, List.mem_map]
  constructor
  · rintro (h | ⟨p, hp, heq⟩)
    · exact CheckpointFragmentMessage.noConfusion h
    · injection heq with h'
      obtain ⟨h1, h2, h3, h4, h5⟩ := CheckpointFragmentMessageChunk.mk.inj h'
      subst h1
      subst h2
      subst h3
      subst h4
      subst h5
      refine ⟨rfl, rfl, rfl, ?_⟩
      have hmem := (mem_enumFrom_iff
        (chunksOf FRAGMENT_CHUNK_SIZE (serializeData f.data)) 0 p).mp hp
      rw [Nat.sub_zero] at hmem
      exact hmem.2
  · rintro ⟨h1, h2, h3, h4⟩
    right
    subst h1
    subst h2
    subst h3
    refine ⟨(mi, mcont), ?_, rfl⟩
    exact (mem_enumFrom_iff
      (chunksOf FRAGMENT_CHUNK_SIZE (serializeData f.data)) 0 (mi, mcont)).mpr
      ⟨Nat.zero_le mi, by rw [Nat.sub_zero]; exact h4⟩

theorem add_chunks_spec (cf : Nat → List Nat) :
    ∀ (ms : List CheckpointFragmentMessageChunk)
      (pb : PartialCheckpointFragment),
      (∀ m ∈ ms, m.chunk_id < pb.chunk_count ∧ m.content = cf m.chunk_id) →
      ∃ pb', pb.add_chunks ms = .ok pb'
        ∧ pb'.proposer = pb.proposer ∧ pb'.other = pb.other
        ∧ pb'.chunk_count = pb.chunk_count
        ∧ (alSorted pb.chunks = true → alSorted pb'.chunks = true)
        ∧ ∀ k, alLookup k pb'.chunks =
            if k ∈ ms.map (fun m => m.chunk_id) then some (cf k)
            else alLookup k pb.chunks := by
  intro ms
  induction ms with
  | nil =>
    intro pb h
    exact ⟨pb, rfl, rfl, rfl, rfl, fun hs => hs, fun k => by simp⟩
  | cons m rest ih =>
    intro pb h
    have hm := h m (List.mem_cons_self m rest)
    have hadd : pb.add_chunk m
        = .ok { pb with chunks := alInsert m.chunk_id m.content pb.chunks } := by
      simp [PartialCheckpointFragment.add_chunk, hm.1]
    obtain ⟨pb', hrec, hp, ho, hc, hsort, hlook⟩ :=
      ih { pb with chunks := alInsert m.chunk_id m.content pb.chunks }
        (fun m' hm' => (h m' (List.mem_cons_of_mem m hm')))
    refine ⟨pb', ?_, hp, ho, hc, ?_, ?_⟩
    · simp only [PartialCheckpointFragment.add_chunks, hadd]
      exact hrec
    · intro hs
      exact hsort (alSorted_insert hs)
    · intro k
      rw [hlook k]
      by_cases hk : k ∈ rest.map (fun m => m.chunk_id)
      · rw [if_pos hk, if_pos (by
          rw [List.map_cons]
          exact List.mem_cons_of_mem _ hk)]
      · rw [if_neg hk]
        show alLookup k (alInsert m.chunk_id m.content pb.chunks) = _
        rw [alLookup_insert]
        by_cases hk2 : k = m.chunk_id
        · subst hk2
          rw [if_pos rfl, if_pos (by
            rw [List.map_cons]
            exact List.mem_cons_self _ _), hm.2]
        · rw [if_neg hk2, if_neg (by
            rw [List.map_cons]
            intro hmem
            rcases List.mem_cons.mp hmem with h' | h'
            · exact hk2 h'
            · exact hk h')]

/-- C4: a buffer built from the header produced by `to_message_chunks`, fed
the fragment's chunk messages in any order with duplicates allowed (every
fed message is one of the fragment's chunks and every chunk occurs), accepts
them all, ends complete, and `to_fragment` reconstructs exactly the original
fragment, chunks concatenated in ascending index order. -/
theorem C4_roundtrip (f : CheckpointFragment)
    (ms : List CheckpointFragmentMessageChunk)
    (hcover : ∀ mc : CheckpointFragmentMessageChunk,
        mc ∈ ms ↔ CheckpointFragmentMessage.Chunk mc ∈ f.to_message_chunks) :
    ∃ pb, (PartialCheckpointFragment.new ⟨f.proposer, f.other,
          (chunksOf FRAGMENT_CHUNK_SIZE (serializeData f.data)).length⟩).add_chunks
        ms = .ok pb
      ∧ pb.is_complete = true
      ∧ pb.to_fragment = .ok f := by
  have hNzero : FRAGMENT_CHUNK_SIZE ≠ 0 := by
    rw [FRAGMENT_CHUNK_SIZE_eq]
    omega
  have hgood : ∀ m ∈ ms, m.chunk_id < (PartialCheckpointFragment.new
      ⟨f.proposer, f.other,
        (chunksOf FRAGMENT_CHUNK_SIZE (serializeData f.data)).length⟩).chunk_count
      ∧ m.content = (fun k =>
          ((chunksOf FRAGMENT_CHUNK_SIZE (serializeData f.data))[k]?).getD [])
        m.chunk_id := by
    intro m hm
    have h4 := ((chunk_mem_to_message_chunks f m).mp ((hcover m).mp hm)).2.2.2
    have hlt : m.chunk_id
        < (chunksOf FRAGMENT_CHUNK_SIZE (serializeData f.data)).length := by
      rcases List.getElem?_eq_some.mp h4 with ⟨hlt, _⟩
      exact hlt
    refine ⟨hlt, ?_⟩
    show m.content
      = ((chunksOf FRAGMENT_CHUNK_SIZE (serializeData f.data))[m.chunk_id]?).getD []
    rw [h4]
    rfl
  obtain ⟨pb', hrec, hp, ho, hc, hsort, hlook⟩ :=
    add_chunks_spec
      (fun k => ((chunksOf FRAGMENT_CHUNK_SIZE (serializeData f.data))[k]?).getD [])
      ms
      (PartialCheckpointFragment.new ⟨f.proposer, f.other,
        (chunksOf FRAGMENT_CHUNK_SIZE (serializeData f.data)).length⟩)
      hgood
  have hid : ∀ k, k ∈ ms.map (fun m => m.chunk_id)
      ↔ k < (chunksOf FRAGMENT_CHUNK_SIZE (serializeData f.data)).length := by
    intro k
    constructor
    · intro hk
      obtain ⟨m, hm, rfl⟩ := List.mem_map.mp hk
      exact (hgood m hm).1
    · intro hk
      refine List.mem_map.mpr ⟨⟨f.proposer.summary.sequence_number,
        f.proposer.authority, f.other.authority, k,
        (chunksOf FRAGMENT_CHUNK_SIZE (serializeData f.data)).get ⟨k, hk⟩⟩, ?_, rfl⟩
      rw [hcover]
      exact (chunk_mem_to_message_chunks f _).mpr
        ⟨rfl, rfl, rfl, List.getElem?_eq_getElem hk⟩
  have hmap : pb'.chunks
      = (chunksOf FRAGMENT_CHUNK_SIZE (serializeData f.data)).enum := by
    apply alExt (hsort rfl)
      (alSorted_enum (chunksOf FRAGMENT_CHUNK_SIZE (serializeData f.data)))
    intro k
    rw [hlook k, alLookup_enum]
    by_cases hk : k < (chunksOf FRAGMENT_CHUNK_SIZE (serializeData f.data)).length
    · rw [if_pos ((hid k).mpr hk), List.getElem?_eq_getElem hk]
      rfl
    · rw [if_neg (fun hmem => hk ((hid k).mp hmem)),
        List.getElem?_eq_none (Nat.le_of_not_lt hk)]
      rfl
  have hcomp : pb'.is_complete = true := by
    show (pb'.chunks.length == pb'.chunk_count) = true
    rw [hmap, List.enum_length, hc]
    show ((chunksOf FRAGMENT_CHUNK_SIZE (serializeData f.data)).length
      == (chunksOf FRAGMENT_CHUNK_SIZE (serializeData f.data)).length) = true
    simp
  refine ⟨pb', hrec, hcomp, ?_⟩
  unfold PartialCheckpointFragment.to_fragment
  rw [if_neg (not_not_intro hcomp), hmap, List.enum_map_snd,
    chunksOf_flatten FRAGMENT_CHUNK_SIZE hNzero (serializeData f.data),
    deserializeData_serializeData f.data, hp, ho]
  rfl

/-- C4 witness: the concrete fragment `wFragment`, whose serialized payload
fits in a single chunk, fed exactly that chunk. -/
theorem C4_roundtrip_witness :
    ∃ pb, (PartialCheckpointFragment.new ⟨wFragment.proposer, wFragment.other,
          (chunksOf FRAGMENT_CHUNK_SIZE (serializeData wFragment.data)).length⟩).add_chunks
        [⟨1, 1, 2, 0, serializeData wFragment.data⟩] = .ok pb
      ∧ pb.is_complete = true
      ∧ pb.to_fragment = .ok wFragment :=
  C4_roundtrip wFragment [⟨1, 1, 2, 0, serializeData wFragment.data⟩] (by
    have hle : (serializeData wFragment.data).length ≤ FRAGMENT_CHUNK_SIZE := by
      rw [FRAGMENT_CHUNK_SIZE_eq]
      decide
    have hne : serializeData wFragment.data ≠ [] := by decide
    have hch : chunksOf FRAGMENT_CHUNK_SIZE (serializeData wFragment.data)
        = [serializeData wFragment.data] := by
      rw [chunksOf_cons (by rw [FRAGMENT_CHUNK_SIZE_eq]; omega) hne,
        List.take_of_length_le hle, List.drop_eq_nil_of_le hle, chunksOf_nil]
    intro mc
    rw [show wFragment.to_message_chunks
        = [CheckpointFragmentMessage.Header
            ⟨wFragment.proposer, wFragment.other, 1⟩,
          CheckpointFragmentMessage.Chunk
            ⟨1, 1, 2, 0, serializeData wFragment.data⟩]
      from by simp only [CheckpointFragment.to_message_chunks, hch]; rfl]
    simp [List.mem_cons])

end Checkpoint
